import Mathlib

/-!
Shallow embedding of the reminder scheduling core
(`internal/application/service/scheduler_impl.go`,
`internal/application/service/reminder_impl.go`,
`internal/infrastructure/scheduler/cron.go`, entities in
`internal/domain/entity`).

Machine conventions:
* `time.Time` is embedded as a calendar record `DateTime`; the Go zero
  value (year 1, January 1, 00:00:00) is `DateTime.zeroTime`, `Before`
  is the strict order on the calendar encoding.
* `cron.EntryID` is a `Nat`; the robfig cron engine is `CronState`
  (monotone id counter plus the list of registered entries).  A job's
  callback is represented symbolically by the reminder id and job kind
  it captures; firing an entry is the explicit `fireEntry` transition.
* The gorm-backed repositories are in-memory lists inside `World`;
  external failures that the Go code tolerates (LINE push failure,
  a failing DB delete during startup reconciliation) are injected by
  explicit boolean oracles.
-/

/-- Calendar timestamp standing for Go `time.Time` (fixed zone, no DST). -/
structure DateTime where
  year : Nat
  month : Nat
  day : Nat
  hour : Nat
  minute : Nat
  second : Nat
deriving DecidableEq, Repr

/-- Go's zero `time.Time`: January 1, year 1, 00:00:00. -/
def DateTime.zeroTime : DateTime := ⟨1, 1, 1, 0, 0, 0⟩

/-- `t.IsZero()` in Go. -/
def DateTime.isZero (t : DateTime) : Prop := t = DateTime.zeroTime

instance (t : DateTime) : Decidable t.isZero := by
  unfold DateTime.isZero; infer_instance

/-- Order-preserving encoding of a calendar timestamp into `Nat`. -/
def DateTime.key (t : DateTime) : Nat :=
  ((((t.year * 13 + t.month) * 32 + t.day) * 24 + t.hour) * 60 + t.minute) * 60 + t.second

/-- `t.Before(u)` in Go: strict order on instants. -/
def DateTime.before (t u : DateTime) : Prop := t.key < u.key

instance (t u : DateTime) : Decidable (t.before u) := by
  unfold DateTime.before; infer_instance

/-- Gregorian leap-year rule. -/
def isLeap (y : Nat) : Bool := (y % 4 == 0 && y % 100 != 0) || y % 400 == 0

/-- Days in a month of the Gregorian calendar. -/
def daysInMonth (y m : Nat) : Nat :=
  if m = 2 then (if isLeap y then 29 else 28)
  else if m = 4 ∨ m = 6 ∨ m = 9 ∨ m = 11 then 30
  else 31

/-- Adding `24 * time.Hour` to a calendar instant in a fixed-offset zone:
the next calendar day at the same time of day. -/
def DateTime.addDay (t : DateTime) : DateTime :=
  if t.day < daysInMonth t.year t.month then { t with day := t.day + 1 }
  else if t.month < 12 then { t with day := 1, month := t.month + 1 }
  else { t with day := 1, month := 1, year := t.year + 1 }

/-- `entity.Reminder` (gorm model `reminder_content`). -/
structure Reminder where
  ID : Nat
  UserID : String
  Content : String
  RemindTime : DateTime
deriving DecidableEq, Repr

/-- `entity.User` (gorm model `user_session`). -/
structure User where
  ID : String
  TextID : Option String
  LastNotifyTextID : Option String
  Status : Nat
deriving DecidableEq, Repr

/-- `constant.StatusInitial`. -/
def StatusInitial : Nat := 0
/-- `constant.StatusAwaitingTime`. -/
def StatusAwaitingTime : Nat := 1
/-- `constant.StatusAwaitingCancel`. -/
def StatusAwaitingCancel : Nat := 2

/-- The two job types of `scheduler_impl.go` (`jobTypeNotify`, `jobTypeCleanup`). -/
inductive JobKind where
  | notify
  | cleanup
deriving DecidableEq, Repr

/-- The error taxonomy of `internal/pkg/errors` (the variants the embedded
operations can produce). -/
inductive AppError where
  | internalServer
  | scheduling
  | reminderNotFound
  | userNotFound
  | snoozeUnavailable
  | databaseOperation
deriving DecidableEq, Repr

instance {e a : Type} [DecidableEq e] [DecidableEq a] : DecidableEq (Except e a) :=
  fun x y =>
    match x, y with
    | .ok v, .ok w =>
        if h : v = w then isTrue (by rw [h]) else isFalse (by simp [h])
    | .error v, .error w =>
        if h : v = w then isTrue (by rw [h]) else isFalse (by simp [h])
    | .ok _, .error _ => isFalse (by simp)
    | .error _, .ok _ => isFalse (by simp)

/-- The cron spec produced by `formatCronSpec`: second, minute, hour,
day-of-month and month fields (day-of-week is `*`, there is no year field). -/
structure CronSpec where
  sec : Nat
  minute : Nat
  hour : Nat
  day : Nat
  month : Nat
deriving DecidableEq, Repr

/-- `formatCronSpec(t)` = `"%d %d %d %d %d *"` with second, minute, hour,
day, month of `t`. -/
def formatCronSpec (t : DateTime) : CronSpec :=
  ⟨t.second, t.minute, t.hour, t.day, t.month⟩

/-- An instant matches the spec when the five mentioned calendar fields agree
(day-of-week is a wildcard; there is no year field to constrain). -/
def specMatches (sp : CronSpec) (t : DateTime) : Prop :=
  sp.sec = t.second ∧ sp.minute = t.minute ∧ sp.hour = t.hour ∧
    sp.day = t.day ∧ sp.month = t.month

instance (sp : CronSpec) (t : DateTime) : Decidable (specMatches sp t) := by
  unfold specMatches; infer_instance

/-- One registered entry of the robfig cron engine: its `EntryID`, the spec it
was armed with, and the callback it runs, represented by the reminder id and
job kind the closure captured. -/
structure CronEntry where
  id : Nat
  spec : CronSpec
  rid : Nat
  kind : JobKind
deriving DecidableEq, Repr

/-- The infrastructure `scheduler.Scheduler` wrapping `cron.Cron`:
a monotone id counter and the set of registered entries. -/
structure CronState where
  nextId : Nat
  entries : List CronEntry
deriving DecidableEq, Repr

/-- `Scheduler.AddJob`: registers the entry under a fresh id and returns it. -/
def addJob (c : CronState) (sp : CronSpec) (rid : Nat) (k : JobKind) :
    Nat × CronState :=
  (c.nextId, ⟨c.nextId + 1, ⟨c.nextId, sp, rid, k⟩ :: c.entries⟩)

/-- Removal of the entry with a given id (`cron.Remove`). -/
def cronRemove : List CronEntry → Nat → List CronEntry
  | [], _ => []
  | e :: t, i => if e.id = i then cronRemove t i else e :: cronRemove t i

/-- The job registry `map[reminderID]map[jobType]cron.EntryID`, flattened to
an association list keyed by `(reminderID, jobType)`. -/
abbrev JobStore : Type := List (Nat × JobKind × Nat)

/-- Lookup of the stored entry id for a key. -/
def jsLookup : JobStore → Nat → JobKind → Option Nat
  | [], _, _ => none
  | (r, k, e) :: t, rid, kind =>
      if r = rid ∧ k = kind then some e else jsLookup t rid kind

/-- Deletion of a key from the registry (map `delete` plus pruning of the
empty per-reminder bucket, which the flat representation makes implicit). -/
def jsRemove : JobStore → Nat → JobKind → JobStore
  | [], _, _ => []
  | (r, k, e) :: t, rid, kind =>
      if r = rid ∧ k = kind then jsRemove t rid kind
      else (r, k, e) :: jsRemove t rid kind

/-- `storeJobID`: map assignment, i.e. overwrite of the key. -/
def jsStore (l : JobStore) (rid : Nat) (kind : JobKind) (eid : Nat) : JobStore :=
  (rid, kind, eid) :: jsRemove l rid kind

/-- Number of registry entries stored under a key. -/
def jsCount : JobStore → Nat → JobKind → Nat
  | [], _, _ => 0
  | (r, k, _) :: t, rid, kind =>
      (if r = rid ∧ k = kind then 1 else 0) + jsCount t rid kind

/-- The cron entries whose callback captured a given `(reminderID, kind)` key. -/
def cronFor : List CronEntry → Nat → JobKind → List CronEntry
  | [], _, _ => []
  | e :: t, rid, kind =>
      if e.rid = rid ∧ e.kind = kind then e :: cronFor t rid kind
      else cronFor t rid kind

/-- The `schedulerService` struct: the cron engine, the job registry, and
whether the notification/cleanup handlers have been wired
(`handleNotificationFunc`/`handleCleanupFunc` non-nil). -/
structure SchedulerState where
  cron : CronState
  jobStore : JobStore
  notifyWired : Bool
  cleanupWired : Bool
deriving DecidableEq, Repr

/-- A freshly assembled service after `NewSchedulerService` plus the handler
wiring performed by `NewReminderService`. -/
def initSched : SchedulerState :=
  { cron := ⟨1, []⟩, jobStore := [], notifyWired := true, cleanupWired := true }

/-- `removeJobID`: removes and returns the stored entry id for the key,
reporting whether one existed. -/
def removeJobID (s : SchedulerState) (rid : Nat) (kind : JobKind) :
    Option Nat × SchedulerState :=
  match jsLookup s.jobStore rid kind with
  | none => (none, s)
  | some eid => (some eid, { s with jobStore := jsRemove s.jobStore rid kind })

/-- `CancelReminderSchedule`: cancel the notification job if present
(registry removal plus `cronScheduler.RemoveJob`); always returns nil. -/
def CancelReminderSchedule (s : SchedulerState) (rid : Nat) :
    Except AppError Unit × SchedulerState :=
  match removeJobID s rid .notify with
  | (some eid, s') =>
      (.ok (), { s' with cron := ⟨s'.cron.nextId, cronRemove s'.cron.entries eid⟩ })
  | (none, s') => (.ok (), s')

/-- `CancelCleanupSchedule`: cancel the cleanup job if present; always nil. -/
def CancelCleanupSchedule (s : SchedulerState) (rid : Nat) :
    Except AppError Unit × SchedulerState :=
  match removeJobID s rid .cleanup with
  | (some eid, s') =>
      (.ok (), { s' with cron := ⟨s'.cron.nextId, cronRemove s'.cron.entries eid⟩ })
  | (none, s') => (.ok (), s')

/-- `ScheduleReminder`: fail fast if the notification handler is unset; fail
with a scheduling error on a zero or past time; otherwise cancel any existing
notification job for the reminder, register a fresh cron entry for the
reminder's time, and store its id under `(reminder.ID, notify)`. -/
def ScheduleReminder (s : SchedulerState) (rem : Reminder) (now : DateTime) :
    Except AppError Unit × SchedulerState :=
  if s.notifyWired = false then (.error .internalServer, s)
  else if rem.RemindTime.isZero ∨ rem.RemindTime.before now then
    (.error .scheduling, s)
  else
    let s1 := (CancelReminderSchedule s rem.ID).2
    let p := addJob s1.cron (formatCronSpec rem.RemindTime) rem.ID .notify
    (.ok (), { s1 with cron := p.2, jobStore := jsStore s1.jobStore rem.ID .notify p.1 })

/-- `ScheduleReminderCleanup`: fail fast if the cleanup handler is unset;
otherwise cancel any existing cleanup job, arm a cron entry for
`time.Now().Add(cleanupGracePeriod)` (24 hours, i.e. the next calendar day),
and store its id under `(reminderID, cleanup)`. -/
def ScheduleReminderCleanup (s : SchedulerState) (rid : Nat) (now : DateTime) :
    Except AppError Unit × SchedulerState :=
  if s.cleanupWired = false then (.error .internalServer, s)
  else
    let s1 := (CancelCleanupSchedule s rid).2
    let p := addJob s1.cron (formatCronSpec now.addDay) rid .cleanup
    (.ok (), { s1 with cron := p.2, jobStore := jsStore s1.jobStore rid .cleanup p.1 })

/-- Lookup of a reminder by primary key (`reminderRepo.FindByID`). -/
def findRem : List Reminder → Nat → Option Reminder
  | [], _ => none
  | r :: t, rid => if r.ID = rid then some r else findRem t rid

/-- Deletion of a reminder by primary key (`reminderRepo.Delete`; the gorm
delete is a no-op, not an error, when the row is absent). -/
def remDelete : List Reminder → Nat → List Reminder
  | [], _ => []
  | r :: t, rid => if r.ID = rid then remDelete t rid else r :: remDelete t rid

/-- `reminderRepo.FindByUserIDAndContent`. -/
def remFindByUserContent : List Reminder → String → String → List Reminder
  | [], _, _ => []
  | r :: t, uid, c =>
      if r.UserID = uid ∧ r.Content = c then r :: remFindByUserContent t uid c
      else remFindByUserContent t uid c

/-- `reminderRepo.DeleteByUserIDAndContent`. -/
def remDeleteByUserContent : List Reminder → String → String → List Reminder
  | [], _, _ => []
  | r :: t, uid, c =>
      if r.UserID = uid ∧ r.Content = c then remDeleteByUserContent t uid c
      else r :: remDeleteByUserContent t uid c

/-- Lookup of a user session by primary key (`userRepo.FindByUserID`). -/
def findUser : List User → String → Option User
  | [], _ => none
  | u :: t, uid => if u.ID = uid then some u else findUser t uid

/-- `userRepo.Update` (gorm `Save` on an existing primary key). -/
def userUpdate (l : List User) (u : User) : List User :=
  l.map fun v => if v.ID = u.ID then u else v

/-- Full system state: the scheduler service, the persisted reminder and user
tables, the autoincrement counter of `reminder_content`, and the log of
successfully delivered push messages. -/
structure World where
  sched : SchedulerState
  reminders : List Reminder
  users : List User
  nextReminderID : Nat
  pushed : List (String × String)
deriving DecidableEq, Repr

/-- The text of the notification push message. -/
def notifyText (content : String) : String := "「" ++ content ++ "」の時間です"

/-- `CreateReminder`: inserts a row with the given owner and content and a
zero `RemindTime`, returning the autoincrement id. -/
def CreateReminder (w : World) (uid content : String) : Nat × World :=
  (w.nextReminderID,
   { w with
      reminders := w.reminders ++
        [⟨w.nextReminderID, uid, content, DateTime.zeroTime⟩],
      nextReminderID := w.nextReminderID + 1 })

/-- `HandleReminderNotification`: tolerate a missing reminder as success;
push the message (`pushOk` is the LINE transport oracle — on failure the
error is only logged); update the user's `LastNotifyTextID` to this reminder
id when the user row is found; finally schedule the cleanup job.  Always
returns nil apart from the unmodelled DB read failures. -/
def HandleReminderNotification (w : World) (rid : Nat) (now : DateTime)
    (pushOk : Bool) : Except AppError Unit × World :=
  match findRem w.reminders rid with
  | none => (.ok (), w)
  | some r =>
      let w1 := if pushOk
        then { w with pushed := (r.UserID, notifyText r.Content) :: w.pushed }
        else w
      let w2 := match findUser w1.users r.UserID with
        | none => w1
        | some u =>
            { w1 with users :=
                userUpdate w1.users { u with LastNotifyTextID := some (toString rid) } }
      (.ok (), { w2 with sched := (ScheduleReminderCleanup w2.sched rid now).2 })

/-- `CleanupOldReminders`: delete the reminder row; an already-absent row is
tolerated as success. -/
def CleanupOldReminders (w : World) (rid : Nat) : Except AppError Unit × World :=
  (.ok (), { w with reminders := remDelete w.reminders rid })

/-- Execution of a fired cron entry: the registered `jobFunc` invokes the
wired handler for its kind and then removes its own `(rid, kind)` key from
the job registry (`removeJobID`); it never calls `RemoveJob` on the cron
engine. -/
def fireEntry (w : World) (e : CronEntry) (now : DateTime) (pushOk : Bool) :
    World :=
  match e.kind with
  | .notify =>
      let w1 := (HandleReminderNotification w e.rid now pushOk).2
      { w1 with sched := (removeJobID w1.sched e.rid .notify).2 }
  | .cleanup =>
      let w1 := (CleanupOldReminders w e.rid).2
      { w1 with sched := (removeJobID w1.sched e.rid .cleanup).2 }

/-- Decimal parse standing for `strconv.ParseUint(s, 10, 64)`: succeeds
exactly on nonempty all-digit strings (the 64-bit range is irrelevant for
the ids involved). -/
def parseNat? (s : String) : Option Nat :=
  if s.data.all Char.isDigit && !s.data.isEmpty then
    some (s.data.foldl (fun acc c => acc * 10 + (c.toNat - 48)) 0)
  else none

/-- `Snooze`: requires the user row; fails with `ErrSnoozeUnavailable` when
`LastNotifyTextID` is nil or empty or the referenced reminder row is gone
(an unparseable reference is an internal error); otherwise cancels the
original reminder's cleanup job, creates a fresh reminder with the same
content and no time, and moves the user to `StatusAwaitingTime` with
`TextID` pointing at the new reminder.  Returns the original content. -/
def Snooze (w : World) (uid : String) : Except AppError String × World :=
  match findUser w.users uid with
  | none => (.error .userNotFound, w)
  | some u =>
      match u.LastNotifyTextID with
      | none => (.error .snoozeUnavailable, w)
      | some refStr =>
          if refStr = "" then (.error .snoozeUnavailable, w)
          else
            match parseNat? refStr with
            | none => (.error .internalServer, w)
            | some n =>
                match findRem w.reminders n with
                | none => (.error .snoozeUnavailable, w)
                | some orig =>
                    let w1 := { w with
                      sched := (CancelCleanupSchedule w.sched orig.ID).2 }
                    let p := CreateReminder w1 uid orig.Content
                    let u' := { u with
                      Status := StatusAwaitingTime,
                      TextID := some (toString p.1) }
                    (.ok orig.Content,
                     { p.2 with users := userUpdate p.2.users u' })

/-- `CancelReminder` (cancel-by-content): find the matching rows; none means
`ErrReminderNotFound`; otherwise delete them all from the store and cancel
the notification and cleanup schedules of every matched id. -/
def CancelReminder (w : World) (uid content : String) :
    Except AppError Unit × World :=
  let matching := remFindByUserContent w.reminders uid content
  if matching = [] then (.error .reminderNotFound, w)
  else
    let w1 := { w with reminders := remDeleteByUserContent w.reminders uid content }
    let s' := matching.foldl
      (fun s r => (CancelCleanupSchedule (CancelReminderSchedule s r.ID).2 r.ID).2)
      w1.sched
    (.ok (), { w1 with sched := s' })

/-- One iteration of the `InitializeSchedules` loop over the fetched rows:
skip a zero time; delete a past reminder (`df` is the oracle for DB delete
failures, which are logged and skipped); otherwise schedule it, counting
only successes.  The accumulator carries the world and the
`scheduledCount`/`deletedCount` counters. -/
def initStep (now : DateTime) (df : Nat → Bool) (acc : World × Nat × Nat)
    (r : Reminder) : World × Nat × Nat :=
  if r.RemindTime.isZero then acc
  else if r.RemindTime.before now then
    if df r.ID then acc
    else ({ acc.1 with reminders := remDelete acc.1.reminders r.ID },
          acc.2.1, acc.2.2 + 1)
  else
    match ScheduleReminder acc.1.sched r now with
    | (.error _, s') => ({ acc.1 with sched := s' }, acc.2.1, acc.2.2)
    | (.ok _, s') => ({ acc.1 with sched := s' }, acc.2.1 + 1, acc.2.2)

/-- `InitializeSchedules`: fetch all rows once and run the loop, reporting
the aggregate scheduled/deleted counts. -/
def InitializeSchedules (w : World) (now : DateTime) (df : Nat → Bool) :
    World × Nat × Nat :=
  w.reminders.foldl (initStep now df) (w, 0, 0)

/-- The scheduler-service calls whose sequences claim C1 ranges over. -/
inductive Op where
  | schedRem (rem : Reminder) (now : DateTime)
  | schedCleanup (rid : Nat) (now : DateTime)
  | cancelRem (rid : Nat)
  | cancelCleanup (rid : Nat)

/-- State transition of one scheduler-service call. -/
def applyOp (s : SchedulerState) : Op → SchedulerState
  | .schedRem rem now => (ScheduleReminder s rem now).2
  | .schedCleanup rid now => (ScheduleReminderCleanup s rid now).2
  | .cancelRem rid => (CancelReminderSchedule s rid).2
  | .cancelCleanup rid => (CancelCleanupSchedule s rid).2

/-- Iterated scheduler-service calls. -/
def applyOps (s : SchedulerState) (ops : List Op) : SchedulerState :=
  ops.foldl applyOp s

/-! ### Basic lemmas about the registry and engine primitives -/

theorem jsLookup_jsRemove_self (l : JobStore) (rid : Nat) (k : JobKind) :
    jsLookup (jsRemove l rid k) rid k = none := by
  induction l with
  | nil => rfl
  | cons p t ih =>
      obtain ⟨r, k', e⟩ := p
      by_cases h : r = rid ∧ k' = k <;> simp [jsRemove, jsLookup, h, ih]

theorem jsLookup_jsRemove_other (l : JobStore) {rid rid' : Nat} {k k' : JobKind}
    (h : ¬(rid' = rid ∧ k' = k)) :
    jsLookup (jsRemove l rid k) rid' k' = jsLookup l rid' k' := by
  induction l with
  | nil => rfl
  | cons p t ih =>
      obtain ⟨r, kk, e⟩ := p
      by_cases h1 : r = rid ∧ kk = k
      · obtain ⟨rfl, rfl⟩ := h1
        have h2 : ¬(r = rid' ∧ kk = k') := by
          rintro ⟨rfl, rfl⟩; exact h ⟨rfl, rfl⟩
        simp [jsRemove, jsLookup, h2, ih]
      · by_cases h2 : r = rid' ∧ kk = k'
        · obtain ⟨rfl, rfl⟩ := h2
          simp [jsRemove, jsLookup, h1]
        · simp [jsRemove, jsLookup, h1, h2, ih]

theorem jsLookup_jsStore_self (l : JobStore) (rid : Nat) (k : JobKind) (eid : Nat) :
    jsLookup (jsStore l rid k eid) rid k = some eid := by
  simp [jsStore, jsLookup]

theorem jsLookup_jsStore_other (l : JobStore) {rid rid' : Nat} {k k' : JobKind}
    (eid : Nat) (h : ¬(rid' = rid ∧ k' = k)) :
    jsLookup (jsStore l rid k eid) rid' k' = jsLookup l rid' k' := by
  have h2 : ¬(rid = rid' ∧ k = k') := by
    rintro ⟨rfl, rfl⟩; exact h ⟨rfl, rfl⟩
  simp [jsStore, jsLookup, h2, jsLookup_jsRemove_other l h]

theorem jsCount_jsRemove_self (l : JobStore) (rid : Nat) (k : JobKind) :
    jsCount (jsRemove l rid k) rid k = 0 := by
  induction l with
  | nil => rfl
  | cons p t ih =>
      obtain ⟨r, kk, e⟩ := p
      by_cases h : r = rid ∧ kk = k <;> simp [jsRemove, jsCount, h, ih]

theorem jsCount_jsRemove_other (l : JobStore) {rid rid' : Nat} {k k' : JobKind}
    (h : ¬(rid' = rid ∧ k' = k)) :
    jsCount (jsRemove l rid k) rid' k' = jsCount l rid' k' := by
  induction l with
  | nil => rfl
  | cons p t ih =>
      obtain ⟨r, kk, e⟩ := p
      by_cases h1 : r = rid ∧ kk = k
      · obtain ⟨rfl, rfl⟩ := h1
        have h2 : ¬(r = rid' ∧ kk = k') := by
          rintro ⟨rfl, rfl⟩; exact h ⟨rfl, rfl⟩
        simp [jsRemove, jsCount, h2, ih]
      · by_cases h2 : r = rid' ∧ kk = k'
        · obtain ⟨rfl, rfl⟩ := h2
          simp [jsRemove, jsCount, h1, ih]
        · simp [jsRemove, jsCount, h1, h2, ih]

theorem jsCount_jsStore_self (l : JobStore) (rid : Nat) (k : JobKind) (eid : Nat) :
    jsCount (jsStore l rid k eid) rid k = 1 := by
  simp [jsStore, jsCount, jsCount_jsRemove_self]

theorem jsCount_jsStore_other (l : JobStore) {rid rid' : Nat} {k k' : JobKind}
    (eid : Nat) (h : ¬(rid' = rid ∧ k' = k)) :
    jsCount (jsStore l rid k eid) rid' k' = jsCount l rid' k' := by
  have h2 : ¬(rid = rid' ∧ k = k') := by
    rintro ⟨rfl, rfl⟩; exact h ⟨rfl, rfl⟩
  simp [jsStore, jsCount, h2, jsCount_jsRemove_other l h]

theorem jsLookup_eq_none_iff_jsCount (l : JobStore) (rid : Nat) (k : JobKind) :
    jsLookup l rid k = none ↔ jsCount l rid k = 0 := by
  induction l with
  | nil => simp [jsLookup, jsCount]
  | cons p t ih =>
      obtain ⟨r, kk, e⟩ := p
      by_cases h : r = rid ∧ kk = k <;> simp [jsLookup, jsCount, h, ih]

theorem mem_cronRemove {e : CronEntry} {l : List CronEntry} {i : Nat} :
    e ∈ cronRemove l i ↔ e ∈ l ∧ e.id ≠ i := by
  induction l with
  | nil => simp [cronRemove]
  | cons x t ih =>
      by_cases h : x.id = i
      · simp only [cronRemove, if_pos h, ih, List.mem_cons]
        constructor
        · rintro ⟨hm, hne⟩; exact ⟨Or.inr hm, hne⟩
        · rintro ⟨hm | hm, hne⟩
          · exact absurd (hm ▸ h) hne
          · exact ⟨hm, hne⟩
      · simp only [cronRemove, if_neg h, List.mem_cons, ih]
        constructor
        · rintro (rfl | ⟨hm, hne⟩)
          · exact ⟨Or.inl rfl, h⟩
          · exact ⟨Or.inr hm, hne⟩
        · rintro ⟨rfl | hm, hne⟩
          · exact Or.inl rfl
          · exact Or.inr ⟨hm, hne⟩

theorem cronRemove_sublist (l : List CronEntry) (i : Nat) :
    (cronRemove l i).Sublist l := by
  induction l with
  | nil => simp [cronRemove]
  | cons x t ih =>
      by_cases h : x.id = i
      · simpa [cronRemove, h] using ih.cons x
      · simpa [cronRemove, h] using ih.cons₂ x

theorem mem_cronFor {e : CronEntry} {l : List CronEntry} {rid : Nat} {k : JobKind} :
    e ∈ cronFor l rid k ↔ e ∈ l ∧ e.rid = rid ∧ e.kind = k := by
  induction l with
  | nil => simp [cronFor]
  | cons x t ih =>
      by_cases h : x.rid = rid ∧ x.kind = k
      · simp only [cronFor, if_pos h, List.mem_cons, ih]
        constructor
        · rintro (rfl | ⟨hm, hk⟩)
          · exact ⟨Or.inl rfl, h⟩
          · exact ⟨Or.inr hm, hk⟩
        · rintro ⟨rfl | hm, hk⟩
          · exact Or.inl rfl
          · exact Or.inr ⟨hm, hk⟩
      · simp only [cronFor, if_neg h, ih, List.mem_cons]
        constructor
        · rintro ⟨hm, hk⟩; exact ⟨Or.inr hm, hk⟩
        · rintro ⟨rfl | hm, hk⟩
          · exact absurd hk h
          · exact ⟨hm, hk⟩

theorem cronFor_eq_nil_iff {l : List CronEntry} {rid : Nat} {k : JobKind} :
    cronFor l rid k = [] ↔ ∀ e ∈ l, ¬(e.rid = rid ∧ e.kind = k) := by
  rw [List.eq_nil_iff_forall_not_mem]
  constructor
  · intro h e hm hk
    exact h e (mem_cronFor.mpr ⟨hm, hk⟩)
  · intro h e hm
    obtain ⟨hm', hk⟩ := mem_cronFor.mp hm
    exact h e hm' ⟨hk.1, hk.2⟩

/-! ### Characterizations of the scheduler-service operations -/

/-- Common shape of `CancelReminderSchedule`/`CancelCleanupSchedule`,
abstracted over the job kind. -/
def cancelJob (s : SchedulerState) (rid : Nat) (k : JobKind) :
    Except AppError Unit × SchedulerState :=
  match removeJobID s rid k with
  | (some eid, s') =>
      (.ok (), { s' with cron := ⟨s'.cron.nextId, cronRemove s'.cron.entries eid⟩ })
  | (none, s') => (.ok (), s')

theorem CancelReminderSchedule_eq (s : SchedulerState) (rid : Nat) :
    CancelReminderSchedule s rid = cancelJob s rid .notify := rfl

theorem CancelCleanupSchedule_eq (s : SchedulerState) (rid : Nat) :
    CancelCleanupSchedule s rid = cancelJob s rid .cleanup := rfl

theorem cancelJob_fst (s : SchedulerState) (rid : Nat) (k : JobKind) :
    (cancelJob s rid k).1 = .ok () := by
  cases h : jsLookup s.jobStore rid k <;> simp [cancelJob, removeJobID, h]

theorem cancelJob_none {s : SchedulerState} {rid : Nat} {k : JobKind}
    (h : jsLookup s.jobStore rid k = none) : cancelJob s rid k = (.ok (), s) := by
  simp [cancelJob, removeJobID, h]

theorem cancelJob_some {s : SchedulerState} {rid : Nat} {k : JobKind} {eid : Nat}
    (h : jsLookup s.jobStore rid k = some eid) :
    cancelJob s rid k =
      (.ok (), { s with jobStore := jsRemove s.jobStore rid k,
                        cron := ⟨s.cron.nextId, cronRemove s.cron.entries eid⟩ }) := by
  simp [cancelJob, removeJobID, h]

theorem jsLookup_cancelJob_self (s : SchedulerState) (rid : Nat) (k : JobKind) :
    jsLookup (cancelJob s rid k).2.jobStore rid k = none := by
  cases h : jsLookup s.jobStore rid k with
  | none => rw [cancelJob_none h]; exact h
  | some eid => rw [cancelJob_some h]; exact jsLookup_jsRemove_self _ _ _

theorem jsLookup_cancelJob_other (s : SchedulerState) {rid rid' : Nat}
    {k k' : JobKind} (h : ¬(rid' = rid ∧ k' = k)) :
    jsLookup (cancelJob s rid k).2.jobStore rid' k' = jsLookup s.jobStore rid' k' := by
  cases h0 : jsLookup s.jobStore rid k with
  | none => rw [cancelJob_none h0]
  | some eid => rw [cancelJob_some h0]; exact jsLookup_jsRemove_other _ h

theorem cancelJob_wiring (s : SchedulerState) (rid : Nat) (k : JobKind) :
    (cancelJob s rid k).2.notifyWired = s.notifyWired ∧
    (cancelJob s rid k).2.cleanupWired = s.cleanupWired ∧
    (cancelJob s rid k).2.cron.nextId = s.cron.nextId := by
  cases h : jsLookup s.jobStore rid k with
  | none => rw [cancelJob_none h]; exact ⟨rfl, rfl, rfl⟩
  | some eid => rw [cancelJob_some h]; exact ⟨rfl, rfl, rfl⟩

theorem mem_entries_cancelJob {s : SchedulerState} {rid : Nat} {k : JobKind}
    {e : CronEntry} (h : e ∈ (cancelJob s rid k).2.cron.entries) :
    e ∈ s.cron.entries := by
  cases h0 : jsLookup s.jobStore rid k with
  | none => rw [cancelJob_none h0] at h; exact h
  | some eid => rw [cancelJob_some h0] at h; exact (mem_cronRemove.mp h).1

/-- Success path of `ScheduleReminder`: cancel the old notification job, then
arm and store a fresh entry for `formatCronSpec reminder.RemindTime`. -/
theorem ScheduleReminder_ok {s : SchedulerState} (rem : Reminder) (now : DateTime)
    (hw : s.notifyWired = true)
    (h : ¬(rem.RemindTime.isZero ∨ rem.RemindTime.before now)) :
    ScheduleReminder s rem now =
      (.ok (),
        { (cancelJob s rem.ID .notify).2 with
          cron := ⟨(cancelJob s rem.ID .notify).2.cron.nextId + 1,
            ⟨(cancelJob s rem.ID .notify).2.cron.nextId,
             formatCronSpec rem.RemindTime, rem.ID, .notify⟩ ::
            (cancelJob s rem.ID .notify).2.cron.entries⟩,
          jobStore := jsStore (cancelJob s rem.ID .notify).2.jobStore rem.ID .notify
            (cancelJob s rem.ID .notify).2.cron.nextId }) := by
  rw [ScheduleReminder]
  simp only [hw, Bool.true_eq_false, if_false, if_neg h, CancelReminderSchedule_eq, addJob]

theorem ScheduleReminder_not_wired {s : SchedulerState} (rem : Reminder)
    (now : DateTime) (hw : s.notifyWired = false) :
    ScheduleReminder s rem now = (.error .internalServer, s) := by
  rw [ScheduleReminder]; simp [hw]

theorem ScheduleReminder_invalid {s : SchedulerState} (rem : Reminder)
    (now : DateTime) (hw : s.notifyWired = true)
    (h : rem.RemindTime.isZero ∨ rem.RemindTime.before now) :
    ScheduleReminder s rem now = (.error .scheduling, s) := by
  rw [ScheduleReminder]; simp [hw, h]

/-- Success path of `ScheduleReminderCleanup`: cancel the old cleanup job,
then arm and store a fresh entry for the next-day instant. -/
theorem ScheduleReminderCleanup_ok {s : SchedulerState} (rid : Nat)
    (now : DateTime) (hw : s.cleanupWired = true) :
    ScheduleReminderCleanup s rid now =
      (.ok (),
        { (cancelJob s rid .cleanup).2 with
          cron := ⟨(cancelJob s rid .cleanup).2.cron.nextId + 1,
            ⟨(cancelJob s rid .cleanup).2.cron.nextId,
             formatCronSpec now.addDay, rid, .cleanup⟩ ::
            (cancelJob s rid .cleanup).2.cron.entries⟩,
          jobStore := jsStore (cancelJob s rid .cleanup).2.jobStore rid .cleanup
            (cancelJob s rid .cleanup).2.cron.nextId }) := by
  rw [ScheduleReminderCleanup]
  simp only [hw, Bool.true_eq_false, if_false, CancelCleanupSchedule_eq, addJob]

theorem ScheduleReminderCleanup_not_wired {s : SchedulerState} (rid : Nat)
    (now : DateTime) (hw : s.cleanupWired = false) :
    ScheduleReminderCleanup s rid now = (.error .internalServer, s) := by
  rw [ScheduleReminderCleanup]; simp [hw]

/-! ### The registry/engine well-formedness invariant -/

/-- Reachable-state invariant of the scheduler service: each registry key is
stored at most once; engine entry ids are fresh-bounded and duplicate-free;
every live engine entry is tracked in the registry under its own key; and
every registry value is the id of a live engine entry with that key. -/
structure SchedInv (s : SchedulerState) : Prop where
  count_le : ∀ rid k, jsCount s.jobStore rid k ≤ 1
  id_lt : ∀ e ∈ s.cron.entries, e.id < s.cron.nextId
  id_nodup : s.cron.entries.Pairwise (fun a b => a.id ≠ b.id)
  entry_tracked : ∀ e ∈ s.cron.entries, jsLookup s.jobStore e.rid e.kind = some e.id
  store_live : ∀ rid k eid, jsLookup s.jobStore rid k = some eid →
    ∃ e ∈ s.cron.entries, e.id = eid ∧ e.rid = rid ∧ e.kind = k

/-- In a duplicate-free entry list, an entry is determined by its id. -/
theorem entry_id_inj {l : List CronEntry}
    (hp : l.Pairwise fun a b => a.id ≠ b.id) {e1 e2 : CronEntry}
    (h1 : e1 ∈ l) (h2 : e2 ∈ l) (h : e1.id = e2.id) : e1 = e2 := by
  by_contra hne
  exact hp.forall (fun _ _ h => Ne.symm h) h1 h2 hne h

theorem SchedInv_initSched : SchedInv initSched := by
  constructor <;> simp [initSched, jsCount, jsLookup]

theorem SchedInv_cancelJob {s : SchedulerState} (rid : Nat) (k : JobKind)
    (hs : SchedInv s) : SchedInv (cancelJob s rid k).2 := by
  cases h0 : jsLookup s.jobStore rid k with
  | none => rw [cancelJob_none h0]; exact hs
  | some eid =>
      rw [cancelJob_some h0]
      refine ⟨?_, ?_, ?_, ?_, ?_⟩
      · intro rid' k'
        by_cases hk : rid' = rid ∧ k' = k
        · obtain ⟨rfl, rfl⟩ := hk
          simp [jsCount_jsRemove_self]
        · rw [jsCount_jsRemove_other _ hk]; exact hs.count_le rid' k'
      · intro e he
        exact hs.id_lt e (mem_cronRemove.mp he).1
      · exact hs.id_nodup.sublist (cronRemove_sublist _ _)
      · intro e he
        obtain ⟨hm, hne⟩ := mem_cronRemove.mp he
        have ht := hs.entry_tracked e hm
        by_cases hk : e.rid = rid ∧ e.kind = k
        · exfalso
          apply hne
          have := ht
          rw [hk.1, hk.2, h0] at this
          exact (Option.some_inj.mp this).symm
        · rw [jsLookup_jsRemove_other _ hk]; exact ht
      · intro rid' k' eid' hl
        by_cases hk : rid' = rid ∧ k' = k
        · obtain ⟨rfl, rfl⟩ := hk
          rw [jsLookup_jsRemove_self] at hl; exact absurd hl (by simp)
        · rw [jsLookup_jsRemove_other _ hk] at hl
          obtain ⟨e, hm, hid, hrid, hkind⟩ := hs.store_live rid' k' eid' hl
          refine ⟨e, mem_cronRemove.mpr ⟨hm, ?_⟩, hid, hrid, hkind⟩
          -- if e.id = eid then by injectivity its key would be (rid, k)
          intro hEq
          obtain ⟨e2, hm2, hid2, hrid2, hkind2⟩ := hs.store_live rid k eid h0
          have he : e = e2 :=
            entry_id_inj hs.id_nodup hm hm2 (by rw [hEq, hid2])
          apply hk
          refine ⟨?_, ?_⟩
          · rw [← hrid, he]; exact hrid2
          · rw [← hkind, he]; exact hkind2

/-- Arming a fresh entry on a state whose registry has no entry for the key
preserves the invariant. -/
theorem SchedInv_arm {s : SchedulerState} (sp : CronSpec) (rid : Nat)
    (k : JobKind) (hs : SchedInv s)
    (hl : jsLookup s.jobStore rid k = none) :
    SchedInv { s with
      cron := ⟨s.cron.nextId + 1, ⟨s.cron.nextId, sp, rid, k⟩ :: s.cron.entries⟩,
      jobStore := jsStore s.jobStore rid k s.cron.nextId } := by
  refine ⟨?_, ?_, ?_, ?_, ?_⟩
  · intro rid' k'
    by_cases hk : rid' = rid ∧ k' = k
    · obtain ⟨rfl, rfl⟩ := hk
      simp [jsCount_jsStore_self]
    · rw [jsCount_jsStore_other _ _ hk]; exact hs.count_le rid' k'
  · intro e he
    rcases List.mem_cons.mp he with rfl | hm
    · simp
    · exact Nat.lt_succ_of_lt (hs.id_lt e hm)
  · refine List.Pairwise.cons ?_ hs.id_nodup
    intro b hb
    exact Nat.ne_of_gt (hs.id_lt b hb)
  · intro e he
    rcases List.mem_cons.mp he with rfl | hm
    · simp [jsLookup_jsStore_self]
    · have ht := hs.entry_tracked e hm
      by_cases hk : e.rid = rid ∧ e.kind = k
      · exfalso
        rw [hk.1, hk.2, hl] at ht
        exact Option.noConfusion ht
      · rw [jsLookup_jsStore_other _ _ hk]; exact ht
  · intro rid' k' eid' hl'
    by_cases hk : rid' = rid ∧ k' = k
    · obtain ⟨rfl, rfl⟩ := hk
      rw [jsLookup_jsStore_self] at hl'
      exact ⟨_, List.mem_cons_self _ _, Option.some_inj.mp hl', rfl, rfl⟩
    · rw [jsLookup_jsStore_other _ _ hk] at hl'
      obtain ⟨e, hm, hid, hrid, hkind⟩ := hs.store_live rid' k' eid' hl'
      exact ⟨e, List.mem_cons_of_mem _ hm, hid, hrid, hkind⟩

theorem SchedInv_ScheduleReminder {s : SchedulerState} (rem : Reminder)
    (now : DateTime) (hs : SchedInv s) :
    SchedInv (ScheduleReminder s rem now).2 := by
  by_cases hw : s.notifyWired = true
  · by_cases h : rem.RemindTime.isZero ∨ rem.RemindTime.before now
    · rw [ScheduleReminder_invalid rem now hw h]; exact hs
    · rw [ScheduleReminder_ok rem now hw h]
      exact SchedInv_arm _ _ _ (SchedInv_cancelJob _ _ hs)
        (jsLookup_cancelJob_self s rem.ID .notify)
  · rw [ScheduleReminder_not_wired rem now (by simpa using hw)]; exact hs

theorem SchedInv_ScheduleReminderCleanup {s : SchedulerState} (rid : Nat)
    (now : DateTime) (hs : SchedInv s) :
    SchedInv (ScheduleReminderCleanup s rid now).2 := by
  by_cases hw : s.cleanupWired = true
  · rw [ScheduleReminderCleanup_ok rid now hw]
    exact SchedInv_arm _ _ _ (SchedInv_cancelJob _ _ hs)
      (jsLookup_cancelJob_self s rid .cleanup)
  · rw [ScheduleReminderCleanup_not_wired rid now (by simpa using hw)]; exact hs

theorem SchedInv_applyOp {s : SchedulerState} (op : Op) (hs : SchedInv s) :
    SchedInv (applyOp s op) := by
  cases op with
  | schedRem rem now => exact SchedInv_ScheduleReminder rem now hs
  | schedCleanup rid now => exact SchedInv_ScheduleReminderCleanup rid now hs
  | cancelRem rid =>
      simpa [applyOp, CancelReminderSchedule_eq] using SchedInv_cancelJob rid .notify hs
  | cancelCleanup rid =>
      simpa [applyOp, CancelCleanupSchedule_eq] using SchedInv_cancelJob rid .cleanup hs

theorem SchedInv_applyOps (ops : List Op) {s : SchedulerState} (hs : SchedInv s) :
    SchedInv (applyOps s ops) := by
  induction ops generalizing s with
  | nil => exact hs
  | cons op t ih => exact ih (SchedInv_applyOp op hs)

/-- Handler wiring is never changed by the four scheduler-service calls. -/
theorem applyOps_wiring (ops : List Op) (s : SchedulerState) :
    (applyOps s ops).notifyWired = s.notifyWired ∧
    (applyOps s ops).cleanupWired = s.cleanupWired := by
  induction ops generalizing s with
  | nil => exact ⟨rfl, rfl⟩
  | cons op t ih =>
      have hstep : (applyOp s op).notifyWired = s.notifyWired ∧
          (applyOp s op).cleanupWired = s.cleanupWired := by
        cases op with
        | schedRem rem now =>
            by_cases hw : s.notifyWired = true
            · by_cases h : rem.RemindTime.isZero ∨ rem.RemindTime.before now
              · simp [applyOp, ScheduleReminder_invalid rem now hw h]
              · simp only [applyOp, ScheduleReminder_ok rem now hw h]
                exact ⟨(cancelJob_wiring s rem.ID .notify).1,
                       (cancelJob_wiring s rem.ID .notify).2.1⟩
            · simp [applyOp, ScheduleReminder_not_wired rem now (by simpa using hw)]
        | schedCleanup rid now =>
            by_cases hw : s.cleanupWired = true
            · simp only [applyOp, ScheduleReminderCleanup_ok rid now hw]
              exact ⟨(cancelJob_wiring s rid .cleanup).1,
                     (cancelJob_wiring s rid .cleanup).2.1⟩
            · simp [applyOp, ScheduleReminderCleanup_not_wired rid now (by simpa using hw)]
        | cancelRem rid =>
            rw [applyOp, CancelReminderSchedule_eq]
            exact ⟨(cancelJob_wiring s rid .notify).1,
                   (cancelJob_wiring s rid .notify).2.1⟩
        | cancelCleanup rid =>
            rw [applyOp, CancelCleanupSchedule_eq]
            exact ⟨(cancelJob_wiring s rid .cleanup).1,
                   (cancelJob_wiring s rid .cleanup).2.1⟩
      rw [applyOps, List.foldl_cons, ← applyOps]
      rw [(ih (applyOp s op)).1, (ih (applyOp s op)).2, hstep.1, hstep.2]
      exact ⟨rfl, rfl⟩

/-- Under the invariant there is at most one live engine entry per key. -/
theorem cronFor_length_le_one {s : SchedulerState} (hs : SchedInv s)
    (rid : Nat) (k : JobKind) :
    (cronFor s.cron.entries rid k).length ≤ 1 := by
  have hsame : ∀ e1 ∈ s.cron.entries, ∀ e2 ∈ s.cron.entries,
      e1.rid = rid → e1.kind = k → e2.rid = rid → e2.kind = k → e1 = e2 := by
    intro e1 h1 e2 h2 hr1 hk1 hr2 hk2
    apply entry_id_inj hs.id_nodup h1 h2
    have t1 := hs.entry_tracked e1 h1
    have t2 := hs.entry_tracked e2 h2
    rw [hr1, hk1] at t1
    rw [hr2, hk2] at t2
    rw [t1] at t2
    exact Option.some_inj.mp t2
  rcases hfor : cronFor s.cron.entries rid k with _ | ⟨x, xs⟩
  · simp
  · have hx : x ∈ cronFor s.cron.entries rid k := by rw [hfor]; exact List.mem_cons_self _ _
    obtain ⟨hxm, hxr, hxk⟩ := mem_cronFor.mp hx
    have hxs : xs = [] := by
      rcases xs with _ | ⟨y, ys⟩
      · rfl
      · exfalso
        have hy : y ∈ cronFor s.cron.entries rid k := by
          rw [hfor]; exact List.mem_cons_of_mem _ (List.mem_cons_self _ _)
        obtain ⟨hym, hyr, hyk⟩ := mem_cronFor.mp hy
        have hnd : (cronFor s.cron.entries rid k).Pairwise (fun a b => a.id ≠ b.id) := by
          have hsub : (cronFor s.cron.entries rid k).Sublist s.cron.entries := by
            clear hfor hx hy hxm hxr hxk hym hyr hyk hsame
            induction s.cron.entries with
            | nil => simp [cronFor]
            | cons z t ih =>
                by_cases hz : z.rid = rid ∧ z.kind = k
                · simpa [cronFor, hz] using ih.cons₂ z
                · simpa [cronFor, hz] using ih.cons z
          exact hs.id_nodup.sublist hsub
        rw [hfor] at hnd
        have hxy : x ≠ y := by
          intro hEq
          exact (List.pairwise_cons.mp hnd).1 y (List.mem_cons_self _ _) (hEq ▸ rfl)
        exact hxy (hsame x hxm y hym hxr hxk hyr hyk)
    rw [hxs]
    simp

theorem applyOps_append_single (s : SchedulerState) (ops : List Op) (op : Op) :
    applyOps s (ops ++ [op]) = applyOp (applyOps s ops) op := by
  simp [applyOps, List.foldl_append, List.foldl_cons]

theorem cancelJob_entries_some {s : SchedulerState} {rid : Nat} {k : JobKind}
    {eid : Nat} (h : jsLookup s.jobStore rid k = some eid) :
    (cancelJob s rid k).2.cron.entries = cronRemove s.cron.entries eid := by
  rw [cancelJob_some h]

/-- Sample times and reminder used by concrete witnesses. -/
def t0 : DateTime := ⟨2025, 6, 1, 12, 0, 0⟩

/-- A time one day after `t0`. -/
def t1 : DateTime := ⟨2025, 6, 2, 12, 0, 0⟩

/-- A reminder armed for `t1`. -/
def rem0 : Reminder := ⟨1, "u1", "milk", t1⟩

/-- C1: over every sequence of `ScheduleReminder`, `ScheduleReminderCleanup`,
`CancelReminderSchedule` and `CancelCleanupSchedule` calls from the freshly
wired service, the job registry holds at most one handle per
`(reminder, kind)` key and the engine holds at most one live entry per key;
moreover a schedule call for a key first removes the key's previous handle
`eid` from both the registry and the engine before storing the new one. -/
theorem c1_registry_at_most_one (ops : List Op) (rid : Nat) (k : JobKind)
    (rem : Reminder) (now : DateTime) :
    jsCount (applyOps initSched ops).jobStore rid k ≤ 1 ∧
    (cronFor (applyOps initSched ops).cron.entries rid k).length ≤ 1 ∧
    (∀ eid,
      jsLookup (applyOps initSched ops).jobStore rem.ID .notify = some eid →
      ¬(rem.RemindTime.isZero ∨ rem.RemindTime.before now) →
      jsLookup (applyOps initSched (ops ++ [Op.schedRem rem now])).jobStore
          rem.ID .notify ≠ some eid ∧
      ∀ e ∈ (applyOps initSched (ops ++ [Op.schedRem rem now])).cron.entries,
        e.id ≠ eid) ∧
    (∀ eid,
      jsLookup (applyOps initSched ops).jobStore rid .cleanup = some eid →
      jsLookup (applyOps initSched (ops ++ [Op.schedCleanup rid now])).jobStore
          rid .cleanup ≠ some eid ∧
      ∀ e ∈ (applyOps initSched (ops ++ [Op.schedCleanup rid now])).cron.entries,
        e.id ≠ eid) := by
  have hs : SchedInv (applyOps initSched ops) :=
    SchedInv_applyOps ops SchedInv_initSched
  set s := applyOps initSched ops with hsdef
  have hwn : s.notifyWired = true := by
    rw [hsdef, (applyOps_wiring ops initSched).1]; rfl
  have hwc : s.cleanupWired = true := by
    rw [hsdef, (applyOps_wiring ops initSched).2]; rfl
  refine ⟨hs.count_le rid k, cronFor_length_le_one hs rid k, ?_, ?_⟩
  · intro eid hl hval
    have heidlt : eid < s.cron.nextId := by
      obtain ⟨e, hm, hid, _, _⟩ := hs.store_live _ _ _ hl
      exact hid ▸ hs.id_lt e hm
    rw [applyOps_append_single, ← hsdef]
    have harm := ScheduleReminder_ok rem now hwn hval
    have hnext : (cancelJob s rem.ID .notify).2.cron.nextId = s.cron.nextId :=
      (cancelJob_wiring s rem.ID .notify).2.2
    constructor
    · show jsLookup (applyOp s (Op.schedRem rem now)).jobStore rem.ID .notify ≠ some eid
      rw [applyOp, harm]
      simp only [jsLookup_jsStore_self, hnext]
      intro hEq
      exact Nat.lt_irrefl _ (Option.some_inj.mp hEq ▸ heidlt)
    · intro e he
      rw [applyOp, harm] at he
      simp only at he
      rcases List.mem_cons.mp he with rfl | hm
      · simp only [hnext]
        exact Nat.ne_of_gt heidlt
      · rw [cancelJob_entries_some hl] at hm
        exact (mem_cronRemove.mp hm).2
  · intro eid hl
    have heidlt : eid < s.cron.nextId := by
      obtain ⟨e, hm, hid, _, _⟩ := hs.store_live _ _ _ hl
      exact hid ▸ hs.id_lt e hm
    rw [applyOps_append_single, ← hsdef]
    have harm := ScheduleReminderCleanup_ok rid now hwc
    have hnext : (cancelJob s rid .cleanup).2.cron.nextId = s.cron.nextId :=
      (cancelJob_wiring s rid .cleanup).2.2
    constructor
    · show jsLookup (applyOp s (Op.schedCleanup rid now)).jobStore rid .cleanup ≠ some eid
      rw [applyOp, harm]
      simp only [jsLookup_jsStore_self, hnext]
      intro hEq
      exact Nat.lt_irrefl _ (Option.some_inj.mp hEq ▸ heidlt)
    · intro e he
      rw [applyOp, harm] at he
      simp only at he
      rcases List.mem_cons.mp he with rfl | hm
      · simp only [hnext]
        exact Nat.ne_of_gt heidlt
      · rw [cancelJob_entries_some hl] at hm
        exact (mem_cronRemove.mp hm).2

/-- Concrete instance of C1: rescheduling reminder 1 replaces its previously
stored handle 1 in the registry. -/
theorem c1_registry_at_most_one_witness :
    jsCount (applyOps initSched [Op.schedRem rem0 t0]).jobStore 1 JobKind.notify ≤ 1 ∧
    jsLookup (applyOps initSched
        ([Op.schedRem rem0 t0] ++ [Op.schedRem rem0 t0])).jobStore
      rem0.ID JobKind.notify ≠ some 1 := by
  have h := c1_registry_at_most_one [Op.schedRem rem0 t0] 1 JobKind.notify rem0 t0
  exact ⟨h.1, (h.2.2.1 1 (by decide) (by decide)).1⟩

/-! ### Further primitive lemmas for the lifecycle operations -/

theorem jsRemove_of_lookup_none {l : JobStore} {rid : Nat} {k : JobKind}
    (h : jsLookup l rid k = none) : jsRemove l rid k = l := by
  induction l with
  | nil => rfl
  | cons p t ih =>
      obtain ⟨r, kk, e⟩ := p
      by_cases hk : r = rid ∧ kk = k
      · rw [jsLookup, if_pos hk] at h
        exact absurd h (by simp)
      · rw [jsLookup, if_neg hk] at h
        rw [jsRemove, if_neg hk, ih h]

theorem removeJobID_snd (s : SchedulerState) (rid : Nat) (k : JobKind) :
    (removeJobID s rid k).2 = { s with jobStore := jsRemove s.jobStore rid k } := by
  cases h : jsLookup s.jobStore rid k with
  | none => simp [removeJobID, h, jsRemove_of_lookup_none h]
  | some eid => simp [removeJobID, h]

theorem findRem_some {l : List Reminder} {rid : Nat} {r : Reminder}
    (h : findRem l rid = some r) : r.ID = rid ∧ r ∈ l := by
  induction l with
  | nil => exact absurd h (by simp [findRem])
  | cons x t ih =>
      by_cases hx : x.ID = rid
      · rw [findRem, if_pos hx] at h
        exact ⟨Option.some_inj.mp h ▸ hx, Option.some_inj.mp h ▸ List.mem_cons_self _ _⟩
      · rw [findRem, if_neg hx] at h
        exact ⟨(ih h).1, List.mem_cons_of_mem _ (ih h).2⟩

theorem findRem_eq_none_iff {l : List Reminder} {rid : Nat} :
    findRem l rid = none ↔ ∀ r ∈ l, r.ID ≠ rid := by
  induction l with
  | nil => simp [findRem]
  | cons x t ih =>
      by_cases hx : x.ID = rid
      · simp [findRem, hx]
      · simp [findRem, hx, ih]

theorem remDelete_of_absent {l : List Reminder} {rid : Nat}
    (h : ∀ r ∈ l, r.ID ≠ rid) : remDelete l rid = l := by
  induction l with
  | nil => rfl
  | cons x t ih =>
      rw [remDelete, if_neg (h x (List.mem_cons_self _ _)),
        ih fun r hr => h r (List.mem_cons_of_mem _ hr)]

theorem findRem_remDelete_self (l : List Reminder) (rid : Nat) :
    findRem (remDelete l rid) rid = none := by
  induction l with
  | nil => rfl
  | cons x t ih =>
      by_cases hx : x.ID = rid
      · rw [remDelete, if_pos hx]; exact ih
      · rw [remDelete, if_neg hx, findRem, if_neg hx]; exact ih

theorem findRem_remDelete_other (l : List Reminder) {rid rid' : Nat}
    (h : rid' ≠ rid) : findRem (remDelete l rid) rid' = findRem l rid' := by
  induction l with
  | nil => rfl
  | cons x t ih =>
      by_cases hx : x.ID = rid
      · have hx' : ¬x.ID = rid' := by rw [hx]; exact fun hh => h hh.symm
        rw [remDelete, if_pos hx, findRem, if_neg hx']
        exact ih
      · by_cases hx' : x.ID = rid'
        · rw [remDelete, if_neg hx, findRem, if_pos hx', findRem, if_pos hx']
        · rw [remDelete, if_neg hx, findRem, if_neg hx', findRem, if_neg hx']
          exact ih

theorem findUser_some {l : List User} {uid : String} {u : User}
    (h : findUser l uid = some u) : u.ID = uid ∧ u ∈ l := by
  induction l with
  | nil => exact absurd h (by simp [findUser])
  | cons x t ih =>
      by_cases hx : x.ID = uid
      · rw [findUser, if_pos hx] at h
        exact ⟨Option.some_inj.mp h ▸ hx, Option.some_inj.mp h ▸ List.mem_cons_self _ _⟩
      · rw [findUser, if_neg hx] at h
        exact ⟨(ih h).1, List.mem_cons_of_mem _ (ih h).2⟩

theorem findUser_userUpdate {l : List User} {uid : String} {u u' : User}
    (h : findUser l uid = some u) (hid : u'.ID = uid) :
    findUser (userUpdate l u') uid = some u' := by
  induction l with
  | nil => exact absurd h (by simp [findUser])
  | cons x t ih =>
      simp only [userUpdate, List.map_cons]
      by_cases hx : x.ID = uid
      · rw [if_pos (show x.ID = u'.ID by rw [hx, hid]), findUser, if_pos hid]
      · rw [findUser, if_neg hx] at h
        rw [if_neg (show ¬x.ID = u'.ID by rw [hid]; exact hx), findUser, if_neg hx]
        simpa only [userUpdate] using ih h

theorem mem_remFindByUserContent {l : List Reminder} {uid c : String}
    {r : Reminder} :
    r ∈ remFindByUserContent l uid c ↔ r ∈ l ∧ r.UserID = uid ∧ r.Content = c := by
  induction l with
  | nil => simp [remFindByUserContent]
  | cons x t ih =>
      by_cases hx : x.UserID = uid ∧ x.Content = c
      · simp only [remFindByUserContent, if_pos hx, List.mem_cons, ih]
        constructor
        · rintro (rfl | ⟨hm, hp⟩)
          · exact ⟨Or.inl rfl, hx⟩
          · exact ⟨Or.inr hm, hp⟩
        · rintro ⟨rfl | hm, hp⟩
          · exact Or.inl rfl
          · exact Or.inr ⟨hm, hp⟩
      · simp only [remFindByUserContent, if_neg hx, ih, List.mem_cons]
        constructor
        · rintro ⟨hm, hp⟩; exact ⟨Or.inr hm, hp⟩
        · rintro ⟨rfl | hm, hp⟩
          · exact absurd ⟨hp.1, hp.2⟩ hx
          · exact ⟨hm, hp⟩

theorem mem_remDeleteByUserContent {l : List Reminder} {uid c : String}
    {r : Reminder} :
    r ∈ remDeleteByUserContent l uid c ↔
      r ∈ l ∧ ¬(r.UserID = uid ∧ r.Content = c) := by
  induction l with
  | nil => simp [remDeleteByUserContent]
  | cons x t ih =>
      by_cases hx : x.UserID = uid ∧ x.Content = c
      · simp only [remDeleteByUserContent, if_pos hx, ih, List.mem_cons]
        constructor
        · rintro ⟨hm, hp⟩; exact ⟨Or.inr hm, hp⟩
        · rintro ⟨rfl | hm, hp⟩
          · exact absurd hx hp
          · exact ⟨hm, hp⟩
      · simp only [remDeleteByUserContent, if_neg hx, List.mem_cons, ih]
        constructor
        · rintro (rfl | ⟨hm, hp⟩)
          · exact ⟨Or.inl rfl, hx⟩
          · exact ⟨Or.inr hm, hp⟩
        · rintro ⟨rfl | hm, hp⟩
          · exact Or.inl rfl
          · exact Or.inr ⟨hm, hp⟩

/-- C8: the two cancel operations never return an error, are exact no-ops
when no job of their kind is registered for the id, and never change the
registry entry of any other `(reminder, kind)` key. -/
theorem c8_cancel_idempotent (s : SchedulerState) (rid : Nat) :
    (CancelReminderSchedule s rid).1 = .ok () ∧
    (CancelCleanupSchedule s rid).1 = .ok () ∧
    (jsLookup s.jobStore rid .notify = none →
      CancelReminderSchedule s rid = (.ok (), s)) ∧
    (jsLookup s.jobStore rid .cleanup = none →
      CancelCleanupSchedule s rid = (.ok (), s)) ∧
    (∀ rid' k', ¬(rid' = rid ∧ k' = JobKind.notify) →
      jsLookup (CancelReminderSchedule s rid).2.jobStore rid' k' =
        jsLookup s.jobStore rid' k') ∧
    (∀ rid' k', ¬(rid' = rid ∧ k' = JobKind.cleanup) →
      jsLookup (CancelCleanupSchedule s rid).2.jobStore rid' k' =
        jsLookup s.jobStore rid' k') := by
  refine ⟨?_, ?_, ?_, ?_, ?_, ?_⟩
  · rw [CancelReminderSchedule_eq]; exact cancelJob_fst s rid .notify
  · rw [CancelCleanupSchedule_eq]; exact cancelJob_fst s rid .cleanup
  · intro h; rw [CancelReminderSchedule_eq]; exact cancelJob_none h
  · intro h; rw [CancelCleanupSchedule_eq]; exact cancelJob_none h
  · intro rid' k' h
    rw [CancelReminderSchedule_eq]; exact jsLookup_cancelJob_other s h
  · intro rid' k' h
    rw [CancelCleanupSchedule_eq]; exact jsLookup_cancelJob_other s h

/-- Concrete instance of C8: cancelling on the fresh service (nothing ever
scheduled) is a no-op without error, and cancelling a registered notify job
leaves an unrelated reminder's entry alone. -/
theorem c8_cancel_idempotent_witness :
    CancelReminderSchedule initSched 5 = (.ok (), initSched) ∧
    CancelCleanupSchedule initSched 5 = (.ok (), initSched) ∧
    jsLookup (CancelReminderSchedule
        (applyOps initSched [Op.schedRem rem0 t0]) 9).2.jobStore 1 JobKind.notify =
      jsLookup (applyOps initSched [Op.schedRem rem0 t0]).jobStore 1 JobKind.notify := by
  refine ⟨(c8_cancel_idempotent initSched 5).2.2.1 (by decide),
          (c8_cancel_idempotent initSched 5).2.2.2.1 (by decide),
          (c8_cancel_idempotent (applyOps initSched [Op.schedRem rem0 t0]) 9).2.2.2.2.1
            1 JobKind.notify (by decide)⟩

/-- C2 (amended): `ScheduleReminder` fails with the internal-server error when
the notification handler is unwired and with the scheduling error when the
time is zero or strictly before now, leaving all state untouched in both
cases; for a wired handler and a nonzero time not strictly before now it
succeeds and registers a notify job armed for the reminder's time. -/
theorem c2_schedule_error_conditions (s : SchedulerState) (rem : Reminder)
    (now : DateTime) :
    (s.notifyWired = false →
      ScheduleReminder s rem now = (.error .internalServer, s)) ∧
    (s.notifyWired = true →
      rem.RemindTime.isZero ∨ rem.RemindTime.before now →
      ScheduleReminder s rem now = (.error .scheduling, s)) ∧
    (s.notifyWired = true →
      ¬(rem.RemindTime.isZero ∨ rem.RemindTime.before now) →
      (ScheduleReminder s rem now).1 = .ok () ∧
      ∃ eid, jsLookup (ScheduleReminder s rem now).2.jobStore rem.ID .notify = some eid ∧
        (⟨eid, formatCronSpec rem.RemindTime, rem.ID, .notify⟩ : CronEntry) ∈
          (ScheduleReminder s rem now).2.cron.entries) := by
  refine ⟨fun hw => ScheduleReminder_not_wired rem now hw,
          fun hw h => ScheduleReminder_invalid rem now hw h,
          fun hw h => ?_⟩
  rw [ScheduleReminder_ok rem now hw h]
  exact ⟨rfl, (cancelJob s rem.ID .notify).2.cron.nextId,
    jsLookup_jsStore_self _ _ _ _, List.mem_cons_self _ _⟩

/-- Concrete instance of C2 (amended): on the fresh service, a reminder whose
time is strictly in the past is rejected with the scheduling error and no
state change. -/
theorem c2_schedule_error_conditions_witness :
    ScheduleReminder initSched ⟨1, "u1", "milk", t0⟩ t1 = (.error .scheduling, initSched) ∧
    (ScheduleReminder initSched rem0 t0).1 = .ok () := by
  refine ⟨(c2_schedule_error_conditions initSched ⟨1, "u1", "milk", t0⟩ t1).2.1
      (by decide) (by decide),
    ((c2_schedule_error_conditions initSched rem0 t0).2.2 (by decide) (by decide)).1⟩

/-- Counterexample to C2 as stated: a reminder time exactly equal to the
current instant is not strictly future, yet `ScheduleReminder` succeeds and
registers a job instead of returning the claimed scheduling error. -/
theorem c2_boundary_counterexample :
    ¬ DateTime.before t0 t0 ∧ ¬ DateTime.isZero t0 ∧
    (ScheduleReminder initSched ⟨1, "u1", "milk", t0⟩ t0).1 = .ok () ∧
    jsLookup (ScheduleReminder initSched ⟨1, "u1", "milk", t0⟩ t0).2.jobStore
      1 JobKind.notify = some 1 := by
  decide

theorem jsLookup_ScheduleReminderCleanup_self {s : SchedulerState} (rid : Nat)
    (now : DateTime) (hw : s.cleanupWired = true) :
    jsLookup (ScheduleReminderCleanup s rid now).2.jobStore rid .cleanup =
      some s.cron.nextId := by
  rw [ScheduleReminderCleanup_ok rid now hw]
  simp only [jsLookup_jsStore_self, (cancelJob_wiring s rid .cleanup).2.2]

/-- The scheduler state reached by a fired notification callback: unchanged
when the reminder row is gone, otherwise the state after scheduling the
cleanup job. -/
theorem HandleReminderNotification_sched (w : World) (rid : Nat)
    (now : DateTime) (p : Bool) :
    (HandleReminderNotification w rid now p).2.sched =
      (match findRem w.reminders rid with
       | none => w.sched
       | some _ => (ScheduleReminderCleanup w.sched rid now).2) := by
  cases hfind : findRem w.reminders rid with
  | none => simp [HandleReminderNotification, hfind]
  | some r =>
      cases p <;>
        cases hu : findUser w.users r.UserID <;>
          simp [HandleReminderNotification, hfind, hu]

/-- C5: with the cleanup handler wired, `ScheduleReminderCleanup` succeeds,
stores a fresh handle for `(rid, cleanup)` whose engine entry is armed for
`now` plus the 24-hour grace period, first removes any previously stored
cleanup handle from registry and engine, and the armed job's callback (on
firing) deletes the reminder and removes its own registry entry. -/
theorem c5_schedule_cleanup (s : SchedulerState) (rid : Nat) (now : DateTime)
    (hw : s.cleanupWired = true) (hs : SchedInv s) :
    (ScheduleReminderCleanup s rid now).1 = .ok () ∧
    jsLookup (ScheduleReminderCleanup s rid now).2.jobStore rid .cleanup =
      some s.cron.nextId ∧
    (⟨s.cron.nextId, formatCronSpec now.addDay, rid, .cleanup⟩ : CronEntry) ∈
      (ScheduleReminderCleanup s rid now).2.cron.entries ∧
    (∀ old, jsLookup s.jobStore rid .cleanup = some old →
      jsLookup (ScheduleReminderCleanup s rid now).2.jobStore rid .cleanup ≠
        some old ∧
      ∀ e ∈ (ScheduleReminderCleanup s rid now).2.cron.entries, e.id ≠ old) ∧
    (∀ (w : World) (e : CronEntry) (n2 : DateTime) (p : Bool),
      e.kind = .cleanup →
      (fireEntry w e n2 p).reminders = remDelete w.reminders e.rid ∧
      jsLookup (fireEntry w e n2 p).sched.jobStore e.rid .cleanup = none ∧
      (fireEntry w e n2 p).sched.cron = w.sched.cron) := by
  have hnext : (cancelJob s rid .cleanup).2.cron.nextId = s.cron.nextId :=
    (cancelJob_wiring s rid .cleanup).2.2
  refine ⟨by rw [ScheduleReminderCleanup_ok rid now hw],
    jsLookup_ScheduleReminderCleanup_self rid now hw, ?_, ?_, ?_⟩
  · rw [ScheduleReminderCleanup_ok rid now hw]
    simp only [← hnext]
    exact List.mem_cons_self _ _
  · intro old hold
    have holdlt : old < s.cron.nextId := by
      obtain ⟨e, hm, hid, _, _⟩ := hs.store_live _ _ _ hold
      exact hid ▸ hs.id_lt e hm
    constructor
    · rw [jsLookup_ScheduleReminderCleanup_self rid now hw]
      intro hEq
      exact Nat.lt_irrefl _ (Option.some_inj.mp hEq ▸ holdlt)
    · intro e he
      rw [ScheduleReminderCleanup_ok rid now hw] at he
      rcases List.mem_cons.mp he with rfl | hm
      · simp only [hnext]
        exact Nat.ne_of_gt holdlt
      · rw [cancelJob_entries_some hold] at hm
        exact (mem_cronRemove.mp hm).2
  · intro w e n2 p hk
    obtain ⟨eid, sp, erid, ekind⟩ := e
    simp only at hk
    subst hk
    simp only [fireEntry, CleanupOldReminders, removeJobID_snd]
    simp [jsLookup_jsRemove_self]

/-- Concrete instance of C5: scheduling cleanup for reminder 7 on the fresh
service registers handle 1 under `(7, cleanup)`. -/
theorem c5_schedule_cleanup_witness :
    (ScheduleReminderCleanup initSched 7 t0).1 = .ok () ∧
    jsLookup (ScheduleReminderCleanup initSched 7 t0).2.jobStore 7
      JobKind.cleanup = some 1 := by
  have h := c5_schedule_cleanup initSched 7 t0 (by decide) SchedInv_initSched
  exact ⟨h.1, h.2.1⟩

/-- C10: a fired cleanup callback removes only its `(rid, cleanup)` registry
key and leaves the engine's entry set untouched; a fired notify callback
never removes its own entry from the engine (the entry outlives the fire)
and removes its `(rid, notify)` registry key; and the armed cron spec
constrains second, minute, hour, day and month but no year, so it equally
matches the same calendar point of any other year. -/
theorem c10_fire_frame :
    (∀ (w : World) (e : CronEntry) (n2 : DateTime) (p : Bool),
      e.kind = .cleanup →
      (fireEntry w e n2 p).sched.cron = w.sched.cron ∧
      (fireEntry w e n2 p).sched.jobStore =
        jsRemove w.sched.jobStore e.rid .cleanup ∧
      (fireEntry w e n2 p).users = w.users ∧
      (fireEntry w e n2 p).pushed = w.pushed) ∧
    (∀ (w : World) (e : CronEntry) (n2 : DateTime) (p : Bool),
      e.kind = .notify →
      e ∈ w.sched.cron.entries →
      (∀ eid, jsLookup w.sched.jobStore e.rid .cleanup = some eid → eid ≠ e.id) →
      e ∈ (fireEntry w e n2 p).sched.cron.entries ∧
      jsLookup (fireEntry w e n2 p).sched.jobStore e.rid .notify = none) ∧
    (∀ (t : DateTime) (y : Nat),
      specMatches (formatCronSpec t) { t with year := y }) := by
  refine ⟨?_, ?_, ?_⟩
  · intro w e n2 p hk
    obtain ⟨eid, sp, erid, ekind⟩ := e
    simp only at hk
    subst hk
    simp only [fireEntry, CleanupOldReminders, removeJobID_snd]
    simp
  · intro w e n2 p hk hmem hne
    obtain ⟨eid, sp, erid, ekind⟩ := e
    simp only at hk hmem hne ⊢
    subst hk
    simp only [fireEntry, removeJobID_snd]
    refine ⟨?_, jsLookup_jsRemove_self _ _ _⟩
    rw [HandleReminderNotification_sched]
    cases hfind : findRem w.reminders erid with
    | none => exact hmem
    | some r =>
        by_cases hw : w.sched.cleanupWired = true
        · rw [ScheduleReminderCleanup_ok erid n2 hw]
          cases hold : jsLookup w.sched.jobStore erid .cleanup with
          | none =>
              rw [cancelJob_none hold]
              exact List.mem_cons_of_mem _ hmem
          | some old =>
              rw [cancelJob_entries_some hold]
              exact List.mem_cons_of_mem _
                (mem_cronRemove.mpr ⟨hmem, fun hEq => hne old hold (hEq ▸ rfl)⟩)
        · rw [ScheduleReminderCleanup_not_wired erid n2 (by simpa using hw)]
          exact hmem
  · intro t y
    simp [specMatches, formatCronSpec]

/-- Concrete instance of C10: firing the armed notify job for reminder 1
leaves its engine entry in place while clearing its registry key. -/
theorem c10_fire_frame_witness :
    (⟨1, formatCronSpec t1, 1, JobKind.notify⟩ : CronEntry) ∈
      (fireEntry
        ⟨applyOps initSched [Op.schedRem rem0 t0], [rem0], [⟨"u1", none, none, 0⟩], 2, []⟩
        ⟨1, formatCronSpec t1, 1, JobKind.notify⟩ t1 true).sched.cron.entries := by
  have hnone : jsLookup (applyOps initSched [Op.schedRem rem0 t0]).jobStore 1
      JobKind.cleanup = none := by decide
  refine (c10_fire_frame.2.1
    ⟨applyOps initSched [Op.schedRem rem0 t0], [rem0], [⟨"u1", none, none, 0⟩], 2, []⟩
    ⟨1, formatCronSpec t1, 1, JobKind.notify⟩ t1 true rfl (by decide) ?_).1
  intro eid h
  rw [hnone] at h
  exact Option.noConfusion h

/-- Full characterization of a notify firing when the reminder and its user
exist: push (on delivery success), record last-notified, schedule cleanup. -/
theorem HandleReminderNotification_found (w : World) (rid : Nat)
    (now : DateTime) (p : Bool) (r : Reminder) (u : User)
    (hfind : findRem w.reminders rid = some r)
    (huser : findUser w.users r.UserID = some u) :
    HandleReminderNotification w rid now p =
      (.ok (), { w with
        pushed := if p then (r.UserID, notifyText r.Content) :: w.pushed
                  else w.pushed,
        users := userUpdate w.users { u with LastNotifyTextID := some (toString rid) },
        sched := (ScheduleReminderCleanup w.sched rid now).2 }) := by
  cases p <;> simp [HandleReminderNotification, hfind, huser]

/-- C9: a notify firing for an already-deleted reminder succeeds without any
state change; when the reminder and its user exist and the cleanup handler is
wired, the handler succeeds even when the push delivery fails, still records
the reminder as last-notified on the user and still schedules its cleanup job
(and on failed delivery nothing is pushed); a cleanup firing for an
already-deleted reminder also succeeds without state change. -/
theorem c9_notification_tolerance :
    (∀ (w : World) (rid : Nat) (now : DateTime) (p : Bool),
      findRem w.reminders rid = none →
      HandleReminderNotification w rid now p = (.ok (), w)) ∧
    (∀ (w : World) (rid : Nat) (now : DateTime) (p : Bool) (r : Reminder)
        (u : User),
      findRem w.reminders rid = some r →
      findUser w.users r.UserID = some u →
      w.sched.cleanupWired = true →
      (HandleReminderNotification w rid now p).1 = .ok () ∧
      findUser (HandleReminderNotification w rid now p).2.users r.UserID =
        some { u with LastNotifyTextID := some (toString rid) } ∧
      jsLookup (HandleReminderNotification w rid now p).2.sched.jobStore rid
        .cleanup = some w.sched.cron.nextId ∧
      (p = false →
        (HandleReminderNotification w rid now p).2.pushed = w.pushed)) ∧
    (∀ (w : World) (rid : Nat),
      findRem w.reminders rid = none → CleanupOldReminders w rid = (.ok (), w)) := by
  refine ⟨?_, ?_, ?_⟩
  · intro w rid now p h
    simp [HandleReminderNotification, h]
  · intro w rid now p r u hfind huser hw
    have hid : ({ u with LastNotifyTextID := some (toString rid) } : User).ID
        = r.UserID := (findUser_some huser).1
    rw [HandleReminderNotification_found w rid now p r u hfind huser]
    refine ⟨rfl, findUser_userUpdate huser hid,
      jsLookup_ScheduleReminderCleanup_self rid now hw, ?_⟩
    intro hp
    subst hp
    simp
  · intro w rid h
    simp only [CleanupOldReminders,
      remDelete_of_absent (findRem_eq_none_iff.mp h)]

/-- Concrete instance of C9: a failed delivery for reminder 1 still updates
the user's last-notified reference and schedules cleanup; firing for an
absent reminder id 42 changes nothing. -/
theorem c9_notification_tolerance_witness :
    HandleReminderNotification
      ⟨initSched, [rem0], [⟨"u1", none, none, 0⟩], 2, []⟩ 42 t1 true =
      (.ok (), ⟨initSched, [rem0], [⟨"u1", none, none, 0⟩], 2, []⟩) ∧
    findUser (HandleReminderNotification
      ⟨initSched, [rem0], [⟨"u1", none, none, 0⟩], 2, []⟩ 1 t1 false).2.users
      "u1" = some ⟨"u1", none, some (toString 1), 0⟩ ∧
    jsLookup (HandleReminderNotification
      ⟨initSched, [rem0], [⟨"u1", none, none, 0⟩], 2, []⟩ 1 t1 false).2.sched.jobStore
      1 JobKind.cleanup = some 1 := by
  have h2 := c9_notification_tolerance.2.1
    ⟨initSched, [rem0], [⟨"u1", none, none, 0⟩], 2, []⟩ 1 t1 false rem0
    ⟨"u1", none, none, 0⟩ (by decide) (by decide) (by decide)
  exact ⟨c9_notification_tolerance.1
      ⟨initSched, [rem0], [⟨"u1", none, none, 0⟩], 2, []⟩ 42 t1 true (by decide),
    h2.2.1, h2.2.2.1⟩

/-- C6: with the user present, `Snooze` fails with the snooze-unavailable
error when the last-notified reference is unset (nil or empty) or the
referenced reminder row no longer exists, leaving the state unchanged;
otherwise it returns the original content, creates a brand-new reminder with
the same content, a fresh id and no time, cancels the original reminder's
cleanup job, and moves the user to awaiting-time with the pending reference
set to the new reminder. -/
theorem c6_snooze (w : World) (uid : String) (u : User)
    (hu : findUser w.users uid = some u)
    (hfresh : ∀ r ∈ w.reminders, r.ID < w.nextReminderID) :
    (u.LastNotifyTextID = none → Snooze w uid = (.error .snoozeUnavailable, w)) ∧
    (u.LastNotifyTextID = some "" → Snooze w uid = (.error .snoozeUnavailable, w)) ∧
    (∀ str n, u.LastNotifyTextID = some str → parseNat? str = some n →
      findRem w.reminders n = none →
      Snooze w uid = (.error .snoozeUnavailable, w)) ∧
    (∀ str n orig, u.LastNotifyTextID = some str → parseNat? str = some n →
      findRem w.reminders n = some orig →
      (Snooze w uid).1 = .ok orig.Content ∧
      (⟨w.nextReminderID, uid, orig.Content, DateTime.zeroTime⟩ : Reminder) ∈
        (Snooze w uid).2.reminders ∧
      (∀ r ∈ w.reminders, r.ID ≠ w.nextReminderID) ∧
      findUser (Snooze w uid).2.users uid =
        some { u with Status := StatusAwaitingTime,
                      TextID := some (toString w.nextReminderID) } ∧
      jsLookup (Snooze w uid).2.sched.jobStore n .cleanup = none ∧
      (Snooze w uid).2.nextReminderID = w.nextReminderID + 1) := by
  refine ⟨?_, ?_, ?_, ?_⟩
  · intro hln
    simp [Snooze, hu, hln]
  · intro hln
    simp [Snooze, hu, hln]
  · intro str n hln htn hfr
    have hne : ¬str = "" := by
      intro h
      rw [h] at htn
      exact Option.noConfusion ((by decide : parseNat? "" = none) ▸ htn)
    simp [Snooze, hu, hln, hne, htn, hfr]
  · intro str n orig hln htn hfr
    have hne : ¬str = "" := by
      intro h
      rw [h] at htn
      exact Option.noConfusion ((by decide : parseNat? "" = none) ▸ htn)
    have hsn : Snooze w uid =
        (.ok orig.Content,
          { w with
            sched := (CancelCleanupSchedule w.sched orig.ID).2,
            reminders := w.reminders ++
              [⟨w.nextReminderID, uid, orig.Content, DateTime.zeroTime⟩],
            nextReminderID := w.nextReminderID + 1,
            users := userUpdate w.users
              { u with Status := StatusAwaitingTime,
                       TextID := some (toString w.nextReminderID) } }) := by
      simp [Snooze, hu, hln, hne, htn, hfr, CreateReminder]
    rw [hsn]
    refine ⟨rfl, ?_, ?_, ?_, ?_, rfl⟩
    · exact List.mem_append.mpr (Or.inr (List.mem_singleton.mpr rfl))
    · intro r hr
      exact Nat.ne_of_lt (hfresh r hr)
    · exact findUser_userUpdate hu (findUser_some hu).1
    · rw [← (findRem_some hfr).1, CancelCleanupSchedule_eq]
      exact jsLookup_cancelJob_self w.sched orig.ID .cleanup

/-- Concrete instance of C6: snoozing after reminder 7 was notified returns
its content, creates reminder 8 with the same content and no time, cancels
reminder 7's cleanup job and parks the user awaiting a time for reminder 8. -/
theorem c6_snooze_witness :
    (Snooze ⟨initSched, [⟨7, "u1", "milk", t1⟩], [⟨"u1", none, some "7", 0⟩], 8, []⟩
      "u1").1 = .ok "milk" ∧
    (⟨8, "u1", "milk", DateTime.zeroTime⟩ : Reminder) ∈
      (Snooze ⟨initSched, [⟨7, "u1", "milk", t1⟩], [⟨"u1", none, some "7", 0⟩], 8, []⟩
        "u1").2.reminders ∧
    findUser (Snooze ⟨initSched, [⟨7, "u1", "milk", t1⟩],
        [⟨"u1", none, some "7", 0⟩], 8, []⟩ "u1").2.users "u1" =
      some ⟨"u1", some (toString 8), some "7", StatusAwaitingTime⟩ ∧
    jsLookup (Snooze ⟨initSched, [⟨7, "u1", "milk", t1⟩],
        [⟨"u1", none, some "7", 0⟩], 8, []⟩ "u1").2.sched.jobStore 7
      JobKind.cleanup = none := by
  have h := (c6_snooze
    ⟨initSched, [⟨7, "u1", "milk", t1⟩], [⟨"u1", none, some "7", 0⟩], 8, []⟩
    "u1" ⟨"u1", none, some "7", 0⟩ (by decide) (by decide)).2.2.2
    "7" 7 ⟨7, "u1", "milk", t1⟩ rfl (by decide) (by decide)
  exact ⟨h.1, h.2.1, h.2.2.2.1, h.2.2.2.2.1⟩

/-- The per-reminder cancellation step of the cancel-by-content loop. -/
def cancelBoth (s : SchedulerState) (r : Reminder) : SchedulerState :=
  (CancelCleanupSchedule (CancelReminderSchedule s r.ID).2 r.ID).2

theorem CancelReminder_eq_fold (w : World) (uid content : String)
    (h : remFindByUserContent w.reminders uid content ≠ []) :
    CancelReminder w uid content =
      (.ok (), { w with
        reminders := remDeleteByUserContent w.reminders uid content,
        sched := (remFindByUserContent w.reminders uid content).foldl
          cancelBoth w.sched }) := by
  simp only [CancelReminder, if_neg h]
  rfl

theorem cancelBoth_lookup_self (s : SchedulerState) (r : Reminder)
    (k : JobKind) : jsLookup (cancelBoth s r).jobStore r.ID k = none := by
  cases k with
  | notify =>
      rw [cancelBoth, CancelCleanupSchedule_eq, CancelReminderSchedule_eq]
      rw [jsLookup_cancelJob_other _ (by simp)]
      exact jsLookup_cancelJob_self _ _ _
  | cleanup =>
      rw [cancelBoth, CancelCleanupSchedule_eq]
      exact jsLookup_cancelJob_self _ _ _

theorem cancelBoth_lookup_other (s : SchedulerState) (r : Reminder)
    {rid : Nat} (h : rid ≠ r.ID) (k : JobKind) :
    jsLookup (cancelBoth s r).jobStore rid k = jsLookup s.jobStore rid k := by
  rw [cancelBoth, CancelCleanupSchedule_eq, CancelReminderSchedule_eq,
    jsLookup_cancelJob_other _ (by exact fun hc => h hc.1),
    jsLookup_cancelJob_other _ (by exact fun hc => h hc.1)]

theorem cancelBoth_none_pres (s : SchedulerState) (r : Reminder) {rid : Nat}
    {k : JobKind} (h : jsLookup s.jobStore rid k = none) :
    jsLookup (cancelBoth s r).jobStore rid k = none := by
  by_cases hr : rid = r.ID
  · subst hr; exact cancelBoth_lookup_self s r k
  · rw [cancelBoth_lookup_other s r hr k]; exact h

theorem foldl_cancelBoth_none (l : List Reminder) :
    ∀ (s : SchedulerState) {rid : Nat} {k : JobKind},
    jsLookup s.jobStore rid k = none →
    jsLookup (l.foldl cancelBoth s).jobStore rid k = none := by
  induction l with
  | nil => intro s rid k h; exact h
  | cons x t ih =>
      intro s rid k h
      exact ih (cancelBoth s x) (cancelBoth_none_pres s x h)

theorem foldl_cancelBoth_self (l : List Reminder) :
    ∀ (s : SchedulerState) (r : Reminder), r ∈ l → ∀ k : JobKind,
    jsLookup (l.foldl cancelBoth s).jobStore r.ID k = none := by
  induction l with
  | nil => intro s r hr k; exact absurd hr (List.not_mem_nil r)
  | cons x t ih =>
      intro s r hr k
      rcases List.mem_cons.mp hr with rfl | hm
      · exact foldl_cancelBoth_none t (cancelBoth s r)
          (cancelBoth_lookup_self s r k)
      · exact ih (cancelBoth s x) r hm k

theorem foldl_cancelBoth_other (l : List Reminder) :
    ∀ (s : SchedulerState) (rid : Nat), (∀ r ∈ l, r.ID ≠ rid) → ∀ k : JobKind,
    jsLookup (l.foldl cancelBoth s).jobStore rid k =
      jsLookup s.jobStore rid k := by
  induction l with
  | nil => intro s rid h k; rfl
  | cons x t ih =>
      intro s rid h k
      rw [List.foldl_cons,
        ih (cancelBoth s x) rid (fun r hr => h r (List.mem_cons_of_mem _ hr)) k,
        cancelBoth_lookup_other s x
          (fun hc => h x (List.mem_cons_self _ _) hc.symm) k]

/-- C7: cancel-by-content fails with the reminder-not-found error (and no
state change) exactly when no reminder of the user carries the content;
otherwise it succeeds, removes every matching reminder (armed or not) from
the store, keeps every non-matching one, clears both registry job kinds of
every matched reminder id, and leaves the registry keys of unmatched ids
untouched. -/
theorem c7_cancel_by_content (w : World) (uid content : String) :
    (remFindByUserContent w.reminders uid content = [] →
      CancelReminder w uid content = (.error .reminderNotFound, w)) ∧
    (remFindByUserContent w.reminders uid content ≠ [] →
      (CancelReminder w uid content).1 = .ok () ∧
      (∀ r ∈ w.reminders, r.UserID = uid → r.Content = content →
        r ∉ (CancelReminder w uid content).2.reminders) ∧
      (∀ r ∈ w.reminders, ¬(r.UserID = uid ∧ r.Content = content) →
        r ∈ (CancelReminder w uid content).2.reminders) ∧
      (∀ r ∈ remFindByUserContent w.reminders uid content, ∀ k,
        jsLookup (CancelReminder w uid content).2.sched.jobStore r.ID k = none) ∧
      (∀ rid k,
        (∀ r ∈ remFindByUserContent w.reminders uid content, r.ID ≠ rid) →
        jsLookup (CancelReminder w uid content).2.sched.jobStore rid k =
          jsLookup w.sched.jobStore rid k)) := by
  constructor
  · intro h
    simp [CancelReminder, h]
  · intro h
    rw [CancelReminder_eq_fold w uid content h]
    refine ⟨rfl, ?_, ?_, ?_, ?_⟩
    · intro r hr hu hc hmem
      exact (mem_remDeleteByUserContent.mp hmem).2 ⟨hu, hc⟩
    · intro r hr hnc
      exact mem_remDeleteByUserContent.mpr ⟨hr, hnc⟩
    · intro r hr k
      exact foldl_cancelBoth_self _ w.sched r hr k
    · intro rid k hne
      exact foldl_cancelBoth_other _ w.sched rid hne k

/-- Concrete instance of C7: with three "milk" reminders (two armed, one
without a time), cancel-by-content succeeds, empties the store of them and
clears both job kinds of each, and cancelling unknown content errors. -/
theorem c7_cancel_by_content_witness :
    CancelReminder ⟨initSched, [rem0], [], 2, []⟩ "u1" "tea" =
      (.error .reminderNotFound, ⟨initSched, [rem0], [], 2, []⟩) ∧
    (CancelReminder
      ⟨applyOps initSched [Op.schedRem rem0 t0],
        [rem0, ⟨2, "u1", "milk", t1⟩, ⟨3, "u1", "milk", DateTime.zeroTime⟩],
        [], 4, []⟩ "u1" "milk").1 = .ok () ∧
    jsLookup (CancelReminder
      ⟨applyOps initSched [Op.schedRem rem0 t0],
        [rem0, ⟨2, "u1", "milk", t1⟩, ⟨3, "u1", "milk", DateTime.zeroTime⟩],
        [], 4, []⟩ "u1" "milk").2.sched.jobStore 1 JobKind.notify = none := by
  have h2 := (c7_cancel_by_content
    ⟨applyOps initSched [Op.schedRem rem0 t0],
      [rem0, ⟨2, "u1", "milk", t1⟩, ⟨3, "u1", "milk", DateTime.zeroTime⟩],
      [], 4, []⟩ "u1" "milk").2 (by decide)
  refine ⟨(c7_cancel_by_content ⟨initSched, [rem0], [], 2, []⟩ "u1" "tea").1
      (by decide),
    h2.1, h2.2.2.2.1 rem0 (by decide) JobKind.notify⟩

/-! ### Startup reconciliation (`InitializeSchedules`) -/

/-- The loop of `InitializeSchedules` as an explicit recursion target. -/
def runInit (now : DateTime) (df : Nat → Bool) (l : List Reminder)
    (w : World) (sc dc : Nat) : World × Nat × Nat :=
  l.foldl (initStep now df) (w, sc, dc)

theorem InitializeSchedules_eq_runInit (w : World) (now : DateTime)
    (df : Nat → Bool) :
    InitializeSchedules w now df = runInit now df w.reminders w 0 0 := rfl

theorem runInit_cons (now : DateTime) (df : Nat → Bool) (x : Reminder)
    (t : List Reminder) (w : World) (sc dc : Nat) :
    runInit now df (x :: t) w sc dc =
      runInit now df t (initStep now df (w, sc, dc) x).1
        (initStep now df (w, sc, dc) x).2.1
        (initStep now df (w, sc, dc) x).2.2 := by
  simp [runInit, List.foldl_cons]

theorem initStep_zero {r : Reminder} (now : DateTime) (df : Nat → Bool)
    (acc : World × Nat × Nat) (h : r.RemindTime.isZero) :
    initStep now df acc r = acc := by
  simp [initStep, h]

theorem initStep_past_dffail {r : Reminder} {now : DateTime} {df : Nat → Bool}
    (acc : World × Nat × Nat) (h1 : ¬r.RemindTime.isZero)
    (h2 : r.RemindTime.before now) (h3 : df r.ID = true) :
    initStep now df acc r = acc := by
  simp [initStep, h1, h2, h3]

theorem ScheduleReminder_ok_fresh {s : SchedulerState} (rem : Reminder)
    (now : DateTime) (hw : s.notifyWired = true)
    (h : ¬(rem.RemindTime.isZero ∨ rem.RemindTime.before now))
    (hl : jsLookup s.jobStore rem.ID .notify = none) :
    ScheduleReminder s rem now =
      (.ok (), { s with
        cron := ⟨s.cron.nextId + 1,
          ⟨s.cron.nextId, formatCronSpec rem.RemindTime, rem.ID, .notify⟩ ::
          s.cron.entries⟩,
        jobStore := jsStore s.jobStore rem.ID .notify s.cron.nextId }) := by
  rw [ScheduleReminder_ok rem now hw h]
  simp only [cancelJob_none hl]

theorem runInit_cons_zero {x : Reminder} (now : DateTime) (df : Nat → Bool)
    (t : List Reminder) (w : World) (sc dc : Nat)
    (h : x.RemindTime.isZero) :
    runInit now df (x :: t) w sc dc = runInit now df t w sc dc := by
  rw [runInit_cons, initStep_zero now df (w, sc, dc) h]

theorem runInit_cons_past_dffail {x : Reminder} {now : DateTime}
    {df : Nat → Bool} (t : List Reminder) (w : World) (sc dc : Nat)
    (h1 : ¬x.RemindTime.isZero) (h2 : x.RemindTime.before now)
    (h3 : df x.ID = true) :
    runInit now df (x :: t) w sc dc = runInit now df t w sc dc := by
  rw [runInit_cons, initStep_past_dffail (w, sc, dc) h1 h2 h3]

theorem runInit_cons_past_ok {x : Reminder} {now : DateTime}
    {df : Nat → Bool} (t : List Reminder) (w : World) (sc dc : Nat)
    (h1 : ¬x.RemindTime.isZero) (h2 : x.RemindTime.before now)
    (h3 : df x.ID = false) :
    runInit now df (x :: t) w sc dc =
      runInit now df t { w with reminders := remDelete w.reminders x.ID }
        sc (dc + 1) := by
  rw [runInit_cons]
  have hstep : initStep now df (w, sc, dc) x =
      ({ w with reminders := remDelete w.reminders x.ID }, sc, dc + 1) := by
    simp [initStep, h1, h2, h3]
  rw [hstep]

/-- The world produced by successfully scheduling one reminder during
reconciliation, starting from a registry without a notify entry for it. -/
def armWorld (w : World) (x : Reminder) : World :=
  { w with sched := { w.sched with
      cron := ⟨w.sched.cron.nextId + 1,
        ⟨w.sched.cron.nextId, formatCronSpec x.RemindTime, x.ID, .notify⟩ ::
        w.sched.cron.entries⟩,
      jobStore := jsStore w.sched.jobStore x.ID .notify w.sched.cron.nextId } }

theorem runInit_cons_future {x : Reminder} {now : DateTime}
    {df : Nat → Bool} (t : List Reminder) (w : World) (sc dc : Nat)
    (hw : w.sched.notifyWired = true)
    (h1 : ¬x.RemindTime.isZero) (h2 : ¬x.RemindTime.before now)
    (hl : jsLookup w.sched.jobStore x.ID .notify = none) :
    runInit now df (x :: t) w sc dc =
      runInit now df t (armWorld w x) (sc + 1) dc := by
  rw [runInit_cons]
  have hok := ScheduleReminder_ok_fresh x now hw (by tauto) hl
  have hstep : initStep now df (w, sc, dc) x = (armWorld w x, sc + 1, dc) := by
    simp [initStep, h1, h2, hok, armWorld]
  rw [hstep]

theorem cronFor_cons_neg {e : CronEntry} {l : List CronEntry} {rid : Nat}
    {k : JobKind} (h : ¬(e.rid = rid ∧ e.kind = k)) :
    cronFor (e :: l) rid k = cronFor l rid k := by
  simp [cronFor, h]

theorem cronFor_cons_pos {e : CronEntry} {l : List CronEntry} {rid : Nat}
    {k : JobKind} (h : e.rid = rid ∧ e.kind = k) :
    cronFor (e :: l) rid k = e :: cronFor l rid k := by
  simp [cronFor, h]

theorem mem_map_id_of_mem {l : List Reminder} {r : Reminder} (h : r ∈ l) :
    r.ID ∈ (l.map fun r => r.ID) :=
  List.mem_map_of_mem _ h

/-- Frame part of the reconciliation loop: ids not occurring in the processed
list keep their registry lookups, their stored reminder row, and their engine
entries; the handler wiring is untouched. -/
theorem initFold_frame (now : DateTime) (df : Nat → Bool) :
    ∀ (l : List Reminder) (w : World) (sc dc : Nat),
    w.sched.notifyWired = true →
    (l.map fun r => r.ID).Nodup →
    (∀ r ∈ l, jsLookup w.sched.jobStore r.ID .notify = none) →
    (runInit now df l w sc dc).1.sched.notifyWired = true ∧
    (∀ rid, rid ∉ (l.map fun r => r.ID) → (∀ k,
      jsLookup (runInit now df l w sc dc).1.sched.jobStore rid k =
        jsLookup w.sched.jobStore rid k) ∧
      findRem (runInit now df l w sc dc).1.reminders rid =
        findRem w.reminders rid ∧
      (∀ k, cronFor (runInit now df l w sc dc).1.sched.cron.entries rid k =
        cronFor w.sched.cron.entries rid k)) := by
  intro l
  induction l with
  | nil =>
      intro w sc dc hw _ _
      exact ⟨hw, fun rid _ => ⟨fun k => rfl, rfl, fun k => rfl⟩⟩
  | cons x t ih =>
      intro w sc dc hw hnd hl
      have hndt : (t.map fun r => r.ID).Nodup := (List.nodup_cons.mp hnd).2
      have hxt : x.ID ∉ (t.map fun r => r.ID) := (List.nodup_cons.mp hnd).1
      have hlx := hl x (List.mem_cons_self _ _)
      have hlt := fun r hr => hl r (List.mem_cons_of_mem x hr)
      by_cases hz : x.RemindTime.isZero
      · rw [runInit_cons_zero now df t w sc dc hz]
        have h := ih w sc dc hw hndt hlt
        exact ⟨h.1, fun rid hrid =>
          h.2 rid (fun hm => hrid (List.mem_cons_of_mem _ hm))⟩
      · by_cases hb : x.RemindTime.before now
        · cases hdf : df x.ID with
          | true =>
              rw [runInit_cons_past_dffail t w sc dc hz hb hdf]
              have h := ih w sc dc hw hndt hlt
              exact ⟨h.1, fun rid hrid =>
                h.2 rid (fun hm => hrid (List.mem_cons_of_mem _ hm))⟩
          | false =>
              rw [runInit_cons_past_ok t w sc dc hz hb hdf]
              have h := ih { w with reminders := remDelete w.reminders x.ID }
                sc (dc + 1) hw hndt hlt
              refine ⟨h.1, fun rid hrid => ?_⟩
              have hrt : rid ∉ (t.map fun r => r.ID) :=
                fun hm => hrid (List.mem_cons_of_mem _ hm)
              have hrx : rid ≠ x.ID := fun hEq =>
                hrid (by rw [hEq]; exact mem_map_id_of_mem (List.mem_cons_self _ _))
              obtain ⟨hA, hB, hC⟩ := h.2 rid hrt
              exact ⟨hA, hB.trans (findRem_remDelete_other _ hrx), hC⟩
        · rw [runInit_cons_future t w sc dc hw hz hb hlx]
          have hw1 : (armWorld w x).sched.notifyWired = true := hw
          have hlt1 : ∀ r ∈ t,
              jsLookup (armWorld w x).sched.jobStore r.ID .notify = none := by
            intro r hr
            have hne : ¬(r.ID = x.ID ∧ JobKind.notify = JobKind.notify) := by
              intro hc
              exact hxt (hc.1 ▸ mem_map_id_of_mem hr)
            show jsLookup (jsStore w.sched.jobStore x.ID .notify
              w.sched.cron.nextId) r.ID .notify = none
            rw [jsLookup_jsStore_other _ _ hne]
            exact hlt r hr
          have h := ih (armWorld w x) (sc + 1) dc hw1 hndt hlt1
          refine ⟨h.1, fun rid hrid => ?_⟩
          have hrt : rid ∉ (t.map fun r => r.ID) :=
            fun hm => hrid (List.mem_cons_of_mem _ hm)
          have hrx : rid ≠ x.ID := fun hEq =>
            hrid (by rw [hEq]; exact mem_map_id_of_mem (List.mem_cons_self _ _))
          obtain ⟨hA, hB, hC⟩ := h.2 rid hrt
          refine ⟨fun k => ?_, hB, fun k => ?_⟩
          · rw [hA k]
            show jsLookup (jsStore w.sched.jobStore x.ID .notify
              w.sched.cron.nextId) rid k = jsLookup w.sched.jobStore rid k
            exact jsLookup_jsStore_other _ _ (fun hc => hrx hc.1)
          · rw [hC k]
            show cronFor (⟨w.sched.cron.nextId, formatCronSpec x.RemindTime,
              x.ID, .notify⟩ :: w.sched.cron.entries) rid k =
              cronFor w.sched.cron.entries rid k
            exact cronFor_cons_neg (fun hc => hrx hc.1.symm)

/-- Reminders the reconciliation loop schedules: nonzero time not strictly
before now. -/
def schedulableB (now : DateTime) (r : Reminder) : Bool :=
  !decide r.RemindTime.isZero && !decide (r.RemindTime.before now)

/-- Reminders the reconciliation loop deletes successfully: nonzero past
time whose store delete does not fail. -/
def deletableB (now : DateTime) (df : Nat → Bool) (r : Reminder) : Bool :=
  !decide r.RemindTime.isZero && decide (r.RemindTime.before now) && !df r.ID

theorem ScheduleReminder_wired (s : SchedulerState) (rem : Reminder)
    (now : DateTime) :
    (ScheduleReminder s rem now).2.notifyWired = s.notifyWired := by
  by_cases hw : s.notifyWired = true
  · by_cases h : rem.RemindTime.isZero ∨ rem.RemindTime.before now
    · rw [ScheduleReminder_invalid rem now hw h]
    · rw [ScheduleReminder_ok rem now hw h]
      exact (cancelJob_wiring s rem.ID .notify).1
  · rw [ScheduleReminder_not_wired rem now (by simpa using hw)]

theorem initStep_wired (now : DateTime) (df : Nat → Bool)
    (acc : World × Nat × Nat) (r : Reminder) :
    (initStep now df acc r).1.sched.notifyWired =
      acc.1.sched.notifyWired := by
  by_cases hz : r.RemindTime.isZero
  · rw [initStep_zero now df acc hz]
  · by_cases hb : r.RemindTime.before now
    · cases hdf : df r.ID with
      | true => rw [initStep_past_dffail acc hz hb hdf]
      | false =>
          have : initStep now df acc r =
              ({ acc.1 with reminders := remDelete acc.1.reminders r.ID },
               acc.2.1, acc.2.2 + 1) := by
            simp [initStep, hz, hb, hdf]
          rw [this]
    · simp only [initStep, if_neg hz, if_neg hb]
      cases hres : ScheduleReminder acc.1.sched r now with
      | mk res s' =>
          have h2 : s'.notifyWired = acc.1.sched.notifyWired := by
            have h3 : s' = (ScheduleReminder acc.1.sched r now).2 := by
              rw [hres]
            rw [h3, ScheduleReminder_wired]
          cases res <;> simp [h2]

theorem initStep_counts (now : DateTime) (df : Nat → Bool)
    (w : World) (sc dc : Nat) (r : Reminder)
    (hw : w.sched.notifyWired = true) :
    (initStep now df (w, sc, dc) r).2.1 =
      sc + (if schedulableB now r then 1 else 0) ∧
    (initStep now df (w, sc, dc) r).2.2 =
      dc + (if deletableB now df r then 1 else 0) := by
  by_cases hz : r.RemindTime.isZero
  · rw [initStep_zero now df (w, sc, dc) hz]
    simp [schedulableB, deletableB, hz]
  · by_cases hb : r.RemindTime.before now
    · cases hdf : df r.ID with
      | true =>
          rw [initStep_past_dffail (w, sc, dc) hz hb hdf]
          simp [schedulableB, deletableB, hz, hb, hdf]
      | false =>
          have hstep : initStep now df (w, sc, dc) r =
              ({ w with reminders := remDelete w.reminders r.ID },
               sc, dc + 1) := by
            simp [initStep, hz, hb, hdf]
          rw [hstep]
          simp [schedulableB, deletableB, hz, hb, hdf]
    · have hok := ScheduleReminder_ok (s := w.sched) r now hw (by tauto)
      have hstep : initStep now df (w, sc, dc) r =
          ({ w with sched := (ScheduleReminder w.sched r now).2 },
           sc + 1, dc) := by
        simp [initStep, hz, hb, hok]
      rw [hstep]
      simp [schedulableB, deletableB, hz, hb]

theorem initFold_counts (now : DateTime) (df : Nat → Bool) :
    ∀ (l : List Reminder) (w : World) (sc dc : Nat),
    w.sched.notifyWired = true →
    (runInit now df l w sc dc).2.1 = sc + l.countP (schedulableB now) ∧
    (runInit now df l w sc dc).2.2 = dc + l.countP (deletableB now df) := by
  intro l
  induction l with
  | nil =>
      intro w sc dc _
      simp [runInit]
  | cons x t ih =>
      intro w sc dc hw
      rw [runInit_cons]
      have hc := initStep_counts now df w sc dc x hw
      have hw1 : (initStep now df (w, sc, dc) x).1.sched.notifyWired = true := by
        rw [initStep_wired]; exact hw
      have h := ih (initStep now df (w, sc, dc) x).1
        (initStep now df (w, sc, dc) x).2.1
        (initStep now df (w, sc, dc) x).2.2 hw1
      rw [h.1, h.2, hc.1, hc.2, List.countP_cons, List.countP_cons]
      constructor <;> omega

/-- Per-reminder outcome of the reconciliation loop: zero-time rows are left
alone with no job; past rows are deleted (when the store delete succeeds)
with no job; the rest end with exactly one armed notify entry for their
remind time and no cleanup job, their row untouched. -/
theorem initFold_items (now : DateTime) (df : Nat → Bool) :
    ∀ (l : List Reminder) (w : World) (sc dc : Nat),
    w.sched.notifyWired = true →
    (l.map fun r => r.ID).Nodup →
    (∀ e ∈ w.sched.cron.entries, e.rid ∉ (l.map fun r => r.ID)) →
    (∀ r ∈ l, ∀ k, jsLookup w.sched.jobStore r.ID k = none) →
    ∀ r ∈ l,
      (r.RemindTime.isZero →
        (∀ k, jsLookup (runInit now df l w sc dc).1.sched.jobStore r.ID k = none) ∧
        findRem (runInit now df l w sc dc).1.reminders r.ID =
          findRem w.reminders r.ID) ∧
      (¬r.RemindTime.isZero → r.RemindTime.before now →
        (∀ k, jsLookup (runInit now df l w sc dc).1.sched.jobStore r.ID k = none) ∧
        (df r.ID = false →
          findRem (runInit now df l w sc dc).1.reminders r.ID = none) ∧
        (df r.ID = true →
          findRem (runInit now df l w sc dc).1.reminders r.ID =
            findRem w.reminders r.ID)) ∧
      (¬r.RemindTime.isZero → ¬r.RemindTime.before now →
        (∃ eid,
          jsLookup (runInit now df l w sc dc).1.sched.jobStore r.ID .notify =
            some eid ∧
          cronFor (runInit now df l w sc dc).1.sched.cron.entries r.ID .notify =
            [⟨eid, formatCronSpec r.RemindTime, r.ID, .notify⟩]) ∧
        jsLookup (runInit now df l w sc dc).1.sched.jobStore r.ID .cleanup =
          none ∧
        findRem (runInit now df l w sc dc).1.reminders r.ID =
          findRem w.reminders r.ID) := by
  intro l
  induction l with
  | nil => intro w sc dc _ _ _ _ r hr; exact absurd hr (List.not_mem_nil r)
  | cons x t ih =>
      intro w sc dc hw hnd h3 h4 r hr
      have hndt : (t.map fun r => r.ID).Nodup := (List.nodup_cons.mp hnd).2
      have hxt : x.ID ∉ (t.map fun r => r.ID) := (List.nodup_cons.mp hnd).1
      have h4t : ∀ r ∈ t, ∀ k, jsLookup w.sched.jobStore r.ID k = none :=
        fun r hr k => h4 r (List.mem_cons_of_mem _ hr) k
      have h3t : ∀ e ∈ w.sched.cron.entries, e.rid ∉ (t.map fun r => r.ID) :=
        fun e he hm => h3 e he (List.mem_cons_of_mem _ hm)
      by_cases hz : x.RemindTime.isZero
      · rw [runInit_cons_zero now df t w sc dc hz]
        have hframe := initFold_frame now df t w sc dc hw hndt
          (fun r hr => h4t r hr .notify)
        rcases List.mem_cons.mp hr with rfl | hrt
        · obtain ⟨hA, hB, _⟩ := hframe.2 r.ID hxt
          exact ⟨fun _ =>
              ⟨fun k => (hA k).trans (h4 r (List.mem_cons_self _ _) k), hB⟩,
            fun hnz _ => absurd hz hnz, fun hnz _ => absurd hz hnz⟩
        · exact ih w sc dc hw hndt h3t h4t r hrt
      · by_cases hb : x.RemindTime.before now
        · cases hdf : df x.ID with
          | true =>
              rw [runInit_cons_past_dffail t w sc dc hz hb hdf]
              have hframe := initFold_frame now df t w sc dc hw hndt
                (fun r hr => h4t r hr .notify)
              rcases List.mem_cons.mp hr with rfl | hrt
              · obtain ⟨hA, hB, _⟩ := hframe.2 r.ID hxt
                refine ⟨fun hzz => absurd hzz hz, fun _ _ =>
                    ⟨fun k => (hA k).trans (h4 r (List.mem_cons_self _ _) k),
                     fun hdf' => ?_, fun _ => hB⟩,
                  fun _ hnb => absurd hb hnb⟩
                rw [hdf'] at hdf
                exact Bool.noConfusion hdf
              · exact ih w sc dc hw hndt h3t h4t r hrt
          | false =>
              rw [runInit_cons_past_ok t w sc dc hz hb hdf]
              have hframe := initFold_frame now df t
                { w with reminders := remDelete w.reminders x.ID } sc (dc + 1)
                hw hndt (fun r hr => h4t r hr .notify)
              rcases List.mem_cons.mp hr with rfl | hrt
              · obtain ⟨hA, hB, _⟩ := hframe.2 r.ID hxt
                refine ⟨fun hzz => absurd hzz hz, fun _ _ =>
                    ⟨fun k => (hA k).trans (h4 r (List.mem_cons_self _ _) k),
                     fun _ => hB.trans (findRem_remDelete_self w.reminders r.ID),
                     fun hdf' => ?_⟩,
                  fun _ hnb => absurd hb hnb⟩
                rw [hdf'] at hdf
                exact Bool.noConfusion hdf
              · have hne : r.ID ≠ x.ID := fun hEq =>
                  hxt (hEq ▸ mem_map_id_of_mem hrt)
                have IH := ih { w with reminders := remDelete w.reminders x.ID }
                  sc (dc + 1) hw hndt h3t h4t r hrt
                refine ⟨fun hzz => ⟨(IH.1 hzz).1,
                    ((IH.1 hzz).2).trans (findRem_remDelete_other _ hne)⟩,
                  fun hnz hb' => ⟨(IH.2.1 hnz hb').1, (IH.2.1 hnz hb').2.1,
                    fun hdt => ((IH.2.1 hnz hb').2.2 hdt).trans
                      (findRem_remDelete_other _ hne)⟩,
                  fun hnz hnb => ⟨(IH.2.2 hnz hnb).1, (IH.2.2 hnz hnb).2.1,
                    ((IH.2.2 hnz hnb).2.2).trans
                      (findRem_remDelete_other _ hne)⟩⟩
        · rw [runInit_cons_future t w sc dc hw hz hb
            (h4 x (List.mem_cons_self _ _) .notify)]
          have hw1 : (armWorld w x).sched.notifyWired = true := hw
          have h41 : ∀ r ∈ t, ∀ k,
              jsLookup (armWorld w x).sched.jobStore r.ID k = none := by
            intro r hr k
            have hne : ¬(r.ID = x.ID ∧ k = JobKind.notify) := fun hc =>
              hxt (hc.1 ▸ mem_map_id_of_mem hr)
            show jsLookup (jsStore w.sched.jobStore x.ID .notify
              w.sched.cron.nextId) r.ID k = none
            rw [jsLookup_jsStore_other _ _ hne]
            exact h4t r hr k
          have h31 : ∀ e ∈ (armWorld w x).sched.cron.entries,
              e.rid ∉ (t.map fun r => r.ID) := by
            intro e he
            rcases List.mem_cons.mp he with rfl | hm
            · exact hxt
            · exact h3t e hm
          have hframe := initFold_frame now df t (armWorld w x) (sc + 1) dc
            hw1 hndt (fun r hr => h41 r hr .notify)
          rcases List.mem_cons.mp hr with rfl | hrt
          · obtain ⟨hA, hB, hC⟩ := hframe.2 r.ID hxt
            refine ⟨fun hzz => absurd hzz hz, fun _ hb' => absurd hb' hb,
              fun _ _ => ⟨⟨w.sched.cron.nextId, ?_, ?_⟩, ?_, hB⟩⟩
            · exact (hA .notify).trans (jsLookup_jsStore_self _ _ _ _)
            · rw [hC .notify]
              have hnil : cronFor w.sched.cron.entries r.ID .notify = [] :=
                cronFor_eq_nil_iff.mpr (fun e he hk =>
                  h3 e he (hk.1 ▸ mem_map_id_of_mem (List.mem_cons_self _ _)))
              show cronFor (⟨w.sched.cron.nextId, formatCronSpec r.RemindTime,
                r.ID, .notify⟩ :: w.sched.cron.entries) r.ID .notify = _
              rw [cronFor_cons_pos ⟨rfl, rfl⟩, hnil]
            · refine (hA .cleanup).trans ?_
              show jsLookup (jsStore w.sched.jobStore r.ID .notify
                w.sched.cron.nextId) r.ID .cleanup = none
              rw [jsLookup_jsStore_other _ _ (by simp)]
              exact h4 r (List.mem_cons_self _ _) .cleanup
          · exact ih (armWorld w x) (sc + 1) dc hw1 hndt h31 h41 r hrt

/-- C3: startup reconciliation from a fresh scheduler partitions the
persisted reminders deterministically — zero-time rows are skipped (row kept,
no job of either kind), strictly-past rows are deleted when their store
delete succeeds (and kept when it fails, with no job either way, the failure
not aborting the rest), and every other row ends with exactly one armed
notify entry for its remind time and no cleanup job; the reported counters
equal the number of successfully scheduled and successfully deleted rows. -/
theorem c3_initialize_partition (w : World) (now : DateTime) (df : Nat → Bool)
    (hw : w.sched = initSched)
    (hnd : (w.reminders.map fun r => r.ID).Nodup) :
    (∀ r ∈ w.reminders,
      (r.RemindTime.isZero →
        (∀ k, jsLookup (InitializeSchedules w now df).1.sched.jobStore r.ID k =
          none) ∧
        findRem (InitializeSchedules w now df).1.reminders r.ID =
          findRem w.reminders r.ID) ∧
      (¬r.RemindTime.isZero → r.RemindTime.before now →
        (∀ k, jsLookup (InitializeSchedules w now df).1.sched.jobStore r.ID k =
          none) ∧
        (df r.ID = false →
          findRem (InitializeSchedules w now df).1.reminders r.ID = none) ∧
        (df r.ID = true →
          findRem (InitializeSchedules w now df).1.reminders r.ID =
            findRem w.reminders r.ID)) ∧
      (¬r.RemindTime.isZero → ¬r.RemindTime.before now →
        (∃ eid,
          jsLookup (InitializeSchedules w now df).1.sched.jobStore r.ID
            .notify = some eid ∧
          cronFor (InitializeSchedules w now df).1.sched.cron.entries r.ID
            .notify = [⟨eid, formatCronSpec r.RemindTime, r.ID, .notify⟩]) ∧
        jsLookup (InitializeSchedules w now df).1.sched.jobStore r.ID
          .cleanup = none ∧
        findRem (InitializeSchedules w now df).1.reminders r.ID =
          findRem w.reminders r.ID)) ∧
    (InitializeSchedules w now df).2.1 =
      w.reminders.countP (schedulableB now) ∧
    (InitializeSchedules w now df).2.2 =
      w.reminders.countP (deletableB now df) := by
  have hww : w.sched.notifyWired = true := by rw [hw]; rfl
  have h3 : ∀ e ∈ w.sched.cron.entries,
      e.rid ∉ (w.reminders.map fun r => r.ID) := by
    intro e he
    rw [hw] at he
    exact absurd he (List.not_mem_nil e)
  have h4 : ∀ r ∈ w.reminders, ∀ k,
      jsLookup w.sched.jobStore r.ID k = none := by
    intro r _ k
    rw [hw]
    rfl
  have hcounts := initFold_counts now df w.reminders w 0 0 hww
  rw [InitializeSchedules_eq_runInit]
  refine ⟨initFold_items now df w.reminders w 0 0 hww hnd h3 h4, ?_, ?_⟩
  · rw [hcounts.1]; omega
  · rw [hcounts.2]; omega

/-- The startup store of the C3 witness: one past, one future and one unset
reminder. -/
def w3init : World :=
  ⟨initSched,
   [⟨1, "u1", "a", ⟨2025, 5, 1, 12, 0, 0⟩⟩, ⟨2, "u1", "b", t1⟩,
    ⟨3, "u1", "c", DateTime.zeroTime⟩],
   [], 4, []⟩

/-- Concrete instance of C3: after reconciliation at `t0`, the past reminder
is deleted, the future one has exactly one armed notify entry, the unset one
is untouched with no job, and the counters report one scheduled and one
deleted. -/
theorem c3_initialize_partition_witness :
    findRem (InitializeSchedules w3init t0 (fun _ => false)).1.reminders 1 =
      none ∧
    findRem (InitializeSchedules w3init t0 (fun _ => false)).1.reminders 3 =
      findRem w3init.reminders 3 ∧
    (∃ eid,
      jsLookup (InitializeSchedules w3init t0
        (fun _ => false)).1.sched.jobStore 2 JobKind.notify = some eid ∧
      cronFor (InitializeSchedules w3init t0
        (fun _ => false)).1.sched.cron.entries 2 JobKind.notify =
        [⟨eid, formatCronSpec t1, 2, JobKind.notify⟩]) ∧
    (InitializeSchedules w3init t0 (fun _ => false)).2.1 = 1 ∧
    (InitializeSchedules w3init t0 (fun _ => false)).2.2 = 1 := by
  have h := c3_initialize_partition w3init t0 (fun _ => false) rfl (by decide)
  refine ⟨?_, ?_, ?_, ?_, ?_⟩
  · exact ((h.1 ⟨1, "u1", "a", ⟨2025, 5, 1, 12, 0, 0⟩⟩ (by decide)).2.1
      (by decide) (by decide)).2.1 rfl
  · exact ((h.1 ⟨3, "u1", "c", DateTime.zeroTime⟩ (by decide)).1
      (by decide)).2
  · exact ((h.1 ⟨2, "u1", "b", t1⟩ (by decide)).2.2
      (by decide) (by decide)).1
  · rw [h.2.1]; decide
  · rw [h.2.2]; decide

/-- World of the C4 scenario: reminder 1 armed for `t1` with its notify entry
registered in the engine. -/
def w4c : World :=
  ⟨applyOps initSched [Op.schedRem rem0 t0], [rem0], [⟨"u1", none, none, 0⟩],
   2, []⟩

/-- The engine entry armed for reminder 1's notify job. -/
def e4c : CronEntry := ⟨1, formatCronSpec t1, 1, JobKind.notify⟩

/-- C4 evaluated at the failing input: firing reminder 1's notify job invokes
the handler (the message is pushed once), removes `(1, notify)` from the
registry and arms exactly one cleanup job — but the fired entry is NOT
removed from the cron engine, and its year-less spec matches the same
calendar instant one year later, so the engine fires it again: the job is
not one-shot. -/
theorem c4_notify_job_refires :
    e4c ∈ w4c.sched.cron.entries ∧
    (fireEntry w4c e4c t1 true).pushed = [("u1", notifyText "milk")] ∧
    jsLookup (fireEntry w4c e4c t1 true).sched.jobStore 1 JobKind.notify =
      none ∧
    jsCount (fireEntry w4c e4c t1 true).sched.jobStore 1 JobKind.cleanup = 1 ∧
    e4c ∈ (fireEntry w4c e4c t1 true).sched.cron.entries ∧
    specMatches e4c.spec { t1 with year := t1.year + 1 } := by
  decide
